import Mathlib

/-!
Verification of the vaiae repository (a YAML-driven wrapper around a cloud
agent-engine management client) against its natural-language specification.

The Python sources are shallowly embedded:
* YAML / Python values become the inductive `PVal`; Python dicts are ordered
  association lists (`List (String × PVal)`), matching insertion-order
  semantics of `dict`.
* Mutable Python dict objects (needed for the deep-copy / in-place
  `deep_update` semantics of `Core._apply_overrides`) are modelled by an
  explicit store `Store` mapping addresses to dict nodes, with heap values
  `HVal` whose dict components are references.
* Fallible Python code returns `Except PyError`.
* The remote Vertex AI client is an environment `Env`; the calls a method
  issues to it are recorded as a `List RemoteCall` trace.
-/

/-- A Python/YAML value as produced by `yaml.safe_load`: scalars, lists and
(ordered) string-keyed mappings. -/
inductive PVal where
  | vnull
  | vbool (b : Bool)
  | vint (n : Int)
  | vstr (s : String)
  | vlist (xs : List PVal)
  | vdict (es : List (String × PVal))
deriving Repr

/-- First-occurrence lookup in an ordered association list; embeds Python
`d[k]` / `d.get(k)` on a dict (Python keys are unique, so first = only). -/
def lookupE (es : List (String × PVal)) (k : String) : Option PVal :=
  match es with
  | [] => none
  | (k', v) :: rest => if k' = k then some v else lookupE rest k

/-- Python `d[k] = v` on an ordered dict: replace the value at the first
occurrence of `k` keeping its position, else append `(k, v)` at the end. -/
def setE (es : List (String × PVal)) (k : String) (v : PVal) :
    List (String × PVal) :=
  match es with
  | [] => [(k, v)]
  | (k', v') :: rest => if k' = k then (k, v) :: rest else (k', v') :: setE rest k v

/-- Python truthiness of a value (`if x:`). -/
def pvTruthy : PVal → Bool
  | .vnull => false
  | .vbool b => b
  | .vint n => n ≠ 0
  | .vstr s => s ≠ ""
  | .vlist xs => !xs.isEmpty
  | .vdict es => !es.isEmpty

/-- Python truthiness of an attribute that is `None` or a value
(`if self.project:`). -/
def optTruthy (o : Option PVal) : Bool :=
  pvTruthy (o.getD .vnull)

/-- Python `str()` of a value, to the extent the embedded code needs it
(f-string interpolation of display names). -/
def pyStr : PVal → String
  | .vnull => "None"
  | .vbool b => if b then "True" else "False"
  | .vint n => toString n
  | .vstr s => s
  | .vlist _ => "[...]"
  | .vdict _ => "{...}"

/-- Pure (value-semantics) translation of the inner `deep_update` of
`Core._apply_overrides` (src/vaiae/core.py lines 288-297): each override
entry is merged recursively when both sides hold a dict at its key, and
assigned wholesale otherwise. This is the state-passing reading of the
in-place loop, with the mutated dict threaded through. -/
def deepUpdateP (base : List (String × PVal)) :
    List (String × PVal) → List (String × PVal)
  | [] => base
  | (k, v) :: rest =>
    match v, lookupE base k with
    | .vdict sub, some (.vdict bsub) =>
        deepUpdateP (setE base k (.vdict (deepUpdateP bsub sub))) rest
    | .vdict _, _ => deepUpdateP (setE base k v) rest
    | _, _ => deepUpdateP (setE base k v) rest
termination_by ov => sizeOf ov
decreasing_by all_goals simp_wf <;> omega

/-- Pure reading of `Core._apply_overrides`: deep-copy then `deep_update`
(the heap-level embedding `applyOverridesH` below carries the mutation
story; this value-level function is what the copies compute). -/
def applyOverridesP (config overrides : List (String × PVal)) :
    List (String × PVal) :=
  deepUpdateP config overrides

/-! ## Heap model of mutable Python dicts

`Core._apply_overrides` promises deep-copy semantics: the returned dict is a
fresh object and the argument is never mutated, although `deep_update` writes
dict entries in place. To state that faithfully, dict objects live in an
explicit store. -/

/-- A heap-level Python value: scalars and lists are inline, dict objects are
references into the store. -/
inductive HVal where
  | hnull
  | hbool (b : Bool)
  | hint (n : Int)
  | hstr (s : String)
  | hlist (xs : List HVal)
  | href (a : Nat)
deriving Repr

/-- A dict object: its ordered entries. -/
abbrev Node := List (String × HVal)

/-- The store: dict objects allocated so far, and the next fresh address. -/
structure Store where
  mem : Nat → Option Node
  next : Nat

/-- Write a node at an (existing) address. -/
def Store.write (σ : Store) (a : Nat) (nd : Node) : Store :=
  ⟨fun x => if x = a then some nd else σ.mem x, σ.next⟩

/-- Allocate a node at the next fresh address. -/
def Store.alloc (σ : Store) (nd : Node) : Nat × Store :=
  (σ.next, ⟨fun x => if x = σ.next then some nd else σ.mem x, σ.next + 1⟩)

/-- The empty store. -/
def emptyStore : Store := ⟨fun _ => none, 0⟩

mutual
/-- Materialise a value tree in the store: every dict becomes a fresh object.
This is how `yaml.safe_load` (without anchors) delivers a config object, and
how assigning a fresh dict value into a dict is modelled. -/
def allocVal : PVal → Store → HVal × Store
  | .vnull, σ => (.hnull, σ)
  | .vbool b, σ => (.hbool b, σ)
  | .vint n, σ => (.hint n, σ)
  | .vstr s, σ => (.hstr s, σ)
  | .vlist xs, σ =>
      let (hs, σ') := allocList xs σ
      (.hlist hs, σ')
  | .vdict es, σ =>
      let (nd, σ') := allocEntries es σ
      let (a, σ'') := σ'.alloc nd
      (.href a, σ'')

/-- Materialise a list of values. -/
def allocList : List PVal → Store → List HVal × Store
  | [], σ => ([], σ)
  | v :: vs, σ =>
      let (h, σ') := allocVal v σ
      let (hs, σ'') := allocList vs σ'
      (h :: hs, σ'')

/-- Materialise dict entries. -/
def allocEntries : List (String × PVal) → Store → Node × Store
  | [], σ => ([], σ)
  | (k, v) :: es, σ =>
      let (h, σ') := allocVal v σ
      let (nd, σ'') := allocEntries es σ'
      ((k, h) :: nd, σ'')
end

mutual
/-- Read a heap value back as a value tree; `fuel` bounds dereferencing depth
(the objects we handle are acyclic, so enough fuel always exists). -/
def readVal (σ : Store) : Nat → HVal → Option PVal
  | _, .hnull => some .vnull
  | _, .hbool b => some (.vbool b)
  | _, .hint n => some (.vint n)
  | _, .hstr s => some (.vstr s)
  | fuel, .hlist xs => (readList σ fuel xs).map .vlist
  | 0, .href _ => none
  | fuel + 1, .href a =>
      match σ.mem a with
      | none => none
      | some nd => (readEntries σ fuel nd).map .vdict

/-- Read back a list of heap values. -/
def readList (σ : Store) : Nat → List HVal → Option (List PVal)
  | _, [] => some []
  | fuel, h :: hs =>
      match readVal σ fuel h, readList σ fuel hs with
      | some v, some vs => some (v :: vs)
      | _, _ => none

/-- Read back dict entries. -/
def readEntries (σ : Store) : Nat → Node → Option (List (String × PVal))
  | _, [] => some []
  | fuel, (k, h) :: nd =>
      match readVal σ fuel h, readEntries σ fuel nd with
      | some v, some es => some ((k, v) :: es)
      | _, _ => none
end

/-- First-occurrence lookup in a node (Python `k in d` / `d[k]`). -/
def lookupEH (nd : Node) (k : String) : Option HVal :=
  match nd with
  | [] => none
  | (k', h) :: rest => if k' = k then some h else lookupEH rest k

/-- Python `d[k] = h` on a dict node. -/
def setEH (nd : Node) (k : String) (h : HVal) : Node :=
  match nd with
  | [] => [(k, h)]
  | (k', h') :: rest => if k' = k then (k, h) :: rest else (k', h') :: setEH rest k h

/-- The in-place `deep_update(base_dict, update_dict)` of
`Core._apply_overrides`, on the store: `a` is `base_dict`; the override
(a `**kwargs` dict, only ever read) is given as a value tree. When the
override value and the existing entry are both dicts the update recurses
into the existing child object; otherwise the entry is assigned the
override value (materialised in the store). Returns `none` only if `a` is
not an allocated object (unreachable from the embedded call sites). -/
def deepUpdateH : List (String × PVal) → Nat → Store → Option Store
  | [], _, σ => some σ
  | (k, v) :: rest, a, σ =>
    match σ.mem a with
    | none => none
    | some nd =>
      match v, lookupEH nd k with
      | .vdict sub, some (.href a') =>
          match deepUpdateH sub a' σ with
          | none => none
          | some σ' => deepUpdateH rest a σ'
      | .vdict _, _ =>
          let (h, σ') := allocVal v σ
          deepUpdateH rest a (σ'.write a (setEH nd k h))
      | _, _ =>
          let (h, σ') := allocVal v σ
          deepUpdateH rest a (σ'.write a (setEH nd k h))
termination_by ov => sizeOf ov
decreasing_by all_goals simp_wf <;> omega

/-- `copy.deepcopy` of the dict object at `a` (acyclic case): read its tree
and materialise a fresh, structurally identical object. -/
def deepcopyDict (σ : Store) (fuel : Nat) (a : Nat) : Option (Nat × Store) :=
  match σ.mem a with
  | none => none
  | some nd =>
    match readEntries σ fuel nd with
    | none => none
    | some es =>
      let (nd', σ') := allocEntries es σ
      some (σ'.alloc nd')

/-- `Core._apply_overrides(config, overrides)` (src/vaiae/core.py lines
273-300): `updated_config = copy.deepcopy(config)`, then
`deep_update(updated_config, overrides)`, returning the updated copy. -/
def applyOverridesH (σ : Store) (fuel : Nat) (a : Nat)
    (overrides : List (String × PVal)) : Option (Nat × Store) :=
  match deepcopyDict σ fuel a with
  | none => none
  | some (a', σ') =>
    match deepUpdateH overrides a' σ' with
    | none => none
    | some σ'' => some (a', σ'')

/-! ## Representation predicate

`RepV σ h v S` says the heap value `h` represents the value tree `v` in
store `σ`, the dict objects involved occupying exactly the address set `S`,
with no internal sharing (each object has one owner). Fresh objects from
`yaml.safe_load` or `allocVal` are of this shape. -/

mutual
/-- `h` represents the tree `v` in `σ`, its dict objects filling `S`. -/
def RepV (σ : Store) : HVal → PVal → Finset Nat → Prop
  | h, .vnull, S => h = .hnull ∧ S = ∅
  | h, .vbool b, S => h = .hbool b ∧ S = ∅
  | h, .vint n, S => h = .hint n ∧ S = ∅
  | h, .vstr s, S => h = .hstr s ∧ S = ∅
  | h, .vlist vs, S => ∃ xs, h = .hlist xs ∧ RepL σ xs vs S
  | h, .vdict es, S =>
      ∃ a nd S₀, h = .href a ∧ σ.mem a = some nd ∧ RepE σ nd es S₀ ∧
        a ∉ S₀ ∧ S = insert a S₀

/-- Pointwise representation of a list, with pairwise disjoint supports. -/
def RepL (σ : Store) : List HVal → List PVal → Finset Nat → Prop
  | hs, [], S => hs = [] ∧ S = ∅
  | hs, v :: vs, S =>
      ∃ h hs' S₁ S₂, hs = h :: hs' ∧ RepV σ h v S₁ ∧ RepL σ hs' vs S₂ ∧
        Disjoint S₁ S₂ ∧ S = S₁ ∪ S₂

/-- Keywise representation of a dict node, with pairwise disjoint supports. -/
def RepE (σ : Store) : Node → List (String × PVal) → Finset Nat → Prop
  | nd, [], S => nd = [] ∧ S = ∅
  | nd, (k, v) :: es, S =>
      ∃ h nd' S₁ S₂, nd = (k, h) :: nd' ∧ RepV σ h v S₁ ∧ RepE σ nd' es S₂ ∧
        Disjoint S₁ S₂ ∧ S = S₁ ∪ S₂
end

/-- A store is valid when nothing is allocated at or past `next`. -/
def Store.Valid (σ : Store) : Prop :=
  ∀ x, σ.next ≤ x → σ.mem x = none

mutual
/-- Depth of a value tree: the dereferencing fuel needed to read it back. -/
def pdepth : PVal → Nat
  | .vnull => 0
  | .vbool _ => 0
  | .vint _ => 0
  | .vstr _ => 0
  | .vlist xs => pdepthList xs
  | .vdict es => pdepthEntries es + 1

/-- Depth of a list of value trees. -/
def pdepthList : List PVal → Nat
  | [] => 0
  | v :: vs => max (pdepth v) (pdepthList vs)

/-- Depth of dict entries. -/
def pdepthEntries : List (String × PVal) → Nat
  | [] => 0
  | (_, v) :: es => max (pdepth v) (pdepthEntries es)
end

mutual
/-- Representation only looks at the store inside the support. -/
theorem repV_frame : ∀ (v : PVal) (σ σ' : Store) (h : HVal) (S : Finset Nat),
    (∀ x ∈ S, σ'.mem x = σ.mem x) → RepV σ h v S → RepV σ' h v S
  | .vnull, _, _, _, _, _, hr => hr
  | .vbool _, _, _, _, _, _, hr => hr
  | .vint _, _, _, _, _, _, hr => hr
  | .vstr _, _, _, _, _, _, hr => hr
  | .vlist vs, σ, σ', h, S, hag, hr => by
      obtain ⟨xs, rfl, hl⟩ := hr
      exact ⟨xs, rfl, repL_frame vs σ σ' xs S hag hl⟩
  | .vdict es, σ, σ', h, S, hag, hr => by
      obtain ⟨a, nd, S₀, rfl, hmem, he, hna, rfl⟩ := hr
      refine ⟨a, nd, S₀, rfl, ?_, ?_, hna, rfl⟩
      · rw [hag a (Finset.mem_insert_self a S₀)]; exact hmem
      · exact repE_frame es σ σ' nd S₀
          (fun x hx => hag x (Finset.mem_insert_of_mem hx)) he

/-- List version of `repV_frame`. -/
theorem repL_frame : ∀ (vs : List PVal) (σ σ' : Store) (hs : List HVal)
    (S : Finset Nat),
    (∀ x ∈ S, σ'.mem x = σ.mem x) → RepL σ hs vs S → RepL σ' hs vs S
  | [], _, _, _, _, _, hr => hr
  | v :: vs, σ, σ', hs, S, hag, hr => by
      obtain ⟨h, hs', S₁, S₂, rfl, hv, hl, hd, rfl⟩ := hr
      exact ⟨h, hs', S₁, S₂, rfl,
        repV_frame v σ σ' h S₁ (fun x hx => hag x (Finset.mem_union_left _ hx)) hv,
        repL_frame vs σ σ' hs' S₂ (fun x hx => hag x (Finset.mem_union_right _ hx)) hl,
        hd, rfl⟩

/-- Entries version of `repV_frame`. -/
theorem repE_frame : ∀ (es : List (String × PVal)) (σ σ' : Store) (nd : Node)
    (S : Finset Nat),
    (∀ x ∈ S, σ'.mem x = σ.mem x) → RepE σ nd es S → RepE σ' nd es S
  | [], _, _, _, _, _, hr => hr
  | (k, v) :: es, σ, σ', nd, S, hag, hr => by
      obtain ⟨h, nd', S₁, S₂, rfl, hv, he, hd, rfl⟩ := hr
      exact ⟨h, nd', S₁, S₂, rfl,
        repV_frame v σ σ' h S₁ (fun x hx => hag x (Finset.mem_union_left _ hx)) hv,
        repE_frame es σ σ' nd' S₂ (fun x hx => hag x (Finset.mem_union_right _ hx)) he,
        hd, rfl⟩
end

mutual
/-- A represented heap value reads back to its tree given enough fuel. -/
theorem repV_read : ∀ (v : PVal) (σ : Store) (h : HVal) (S : Finset Nat),
    RepV σ h v S → ∀ f, pdepth v ≤ f → readVal σ f h = some v
  | .vnull, σ, h, S, hr, f, _ => by
      obtain ⟨rfl, -⟩ := hr; cases f <;> simp [readVal]
  | .vbool b, σ, h, S, hr, f, _ => by
      obtain ⟨rfl, -⟩ := hr; cases f <;> simp [readVal]
  | .vint n, σ, h, S, hr, f, _ => by
      obtain ⟨rfl, -⟩ := hr; cases f <;> simp [readVal]
  | .vstr s, σ, h, S, hr, f, _ => by
      obtain ⟨rfl, -⟩ := hr; cases f <;> simp [readVal]
  | .vlist vs, σ, h, S, hr, f, hf => by
      obtain ⟨xs, rfl, hl⟩ := hr
      have := repL_read vs σ xs S hl f (by simpa [pdepth] using hf)
      cases f <;> simp [readVal, this]
  | .vdict es, σ, h, S, hr, f, hf => by
      obtain ⟨a, nd, S₀, rfl, hmem, he, -, -⟩ := hr
      match f, hf with
      | f + 1, hf =>
        have := repE_read es σ nd S₀ he f (by simp [pdepth] at hf; omega)
        simp [readVal, hmem, this]

/-- List version of `repV_read`. -/
theorem repL_read : ∀ (vs : List PVal) (σ : Store) (hs : List HVal)
    (S : Finset Nat),
    RepL σ hs vs S → ∀ f, pdepthList vs ≤ f → readList σ f hs = some vs
  | [], σ, hs, S, hr, f, _ => by obtain ⟨rfl, -⟩ := hr; simp [readList]
  | v :: vs, σ, hs, S, hr, f, hf => by
      obtain ⟨h, hs', S₁, S₂, rfl, hv, hl, -, -⟩ := hr
      have h1 := repV_read v σ h S₁ hv f (by simp [pdepthList] at hf; omega)
      have h2 := repL_read vs σ hs' S₂ hl f (by simp [pdepthList] at hf; omega)
      simp [readList, h1, h2]

/-- Entries version of `repV_read`. -/
theorem repE_read : ∀ (es : List (String × PVal)) (σ : Store) (nd : Node)
    (S : Finset Nat),
    RepE σ nd es S → ∀ f, pdepthEntries es ≤ f → readEntries σ f nd = some es
  | [], σ, nd, S, hr, f, _ => by obtain ⟨rfl, -⟩ := hr; simp [readEntries]
  | (k, v) :: es, σ, nd, S, hr, f, hf => by
      obtain ⟨h, nd', S₁, S₂, rfl, hv, he, -, -⟩ := hr
      have h1 := repV_read v σ h S₁ hv f (by simp [pdepthEntries] at hf; omega)
      have h2 := repE_read es σ nd' S₂ he f (by simp [pdepthEntries] at hf; omega)
      simp [readEntries, h1, h2]
end

mutual
/-- Every address in a support is an allocated dict object. -/
theorem repV_support : ∀ (v : PVal) (σ : Store) (h : HVal) (S : Finset Nat),
    RepV σ h v S → ∀ x ∈ S, ∃ nd, σ.mem x = some nd
  | .vnull, σ, h, S, hr, x, hx => by obtain ⟨-, rfl⟩ := hr; simp at hx
  | .vbool b, σ, h, S, hr, x, hx => by obtain ⟨-, rfl⟩ := hr; simp at hx
  | .vint n, σ, h, S, hr, x, hx => by obtain ⟨-, rfl⟩ := hr; simp at hx
  | .vstr s, σ, h, S, hr, x, hx => by obtain ⟨-, rfl⟩ := hr; simp at hx
  | .vlist vs, σ, h, S, hr, x, hx => by
      obtain ⟨xs, rfl, hl⟩ := hr
      exact repL_support vs σ xs S hl x hx
  | .vdict es, σ, h, S, hr, x, hx => by
      obtain ⟨a, nd, S₀, rfl, hmem, he, -, rfl⟩ := hr
      rcases Finset.mem_insert.mp hx with rfl | hx₀
      · exact ⟨nd, hmem⟩
      · exact repE_support es σ nd S₀ he x hx₀

/-- List version of `repV_support`. -/
theorem repL_support : ∀ (vs : List PVal) (σ : Store) (hs : List HVal)
    (S : Finset Nat),
    RepL σ hs vs S → ∀ x ∈ S, ∃ nd, σ.mem x = some nd
  | [], σ, hs, S, hr, x, hx => by obtain ⟨-, rfl⟩ := hr; simp at hx
  | v :: vs, σ, hs, S, hr, x, hx => by
      obtain ⟨h, hs', S₁, S₂, rfl, hv, hl, -, rfl⟩ := hr
      rcases Finset.mem_union.mp hx with hx₁ | hx₂
      · exact repV_support v σ h S₁ hv x hx₁
      · exact repL_support vs σ hs' S₂ hl x hx₂

/-- Entries version of `repV_support`. -/
theorem repE_support : ∀ (es : List (String × PVal)) (σ : Store) (nd : Node)
    (S : Finset Nat),
    RepE σ nd es S → ∀ x ∈ S, ∃ nd', σ.mem x = some nd'
  | [], σ, nd, S, hr, x, hx => by obtain ⟨-, rfl⟩ := hr; simp at hx
  | (k, v) :: es, σ, nd, S, hr, x, hx => by
      obtain ⟨h, nd', S₁, S₂, rfl, hv, he, -, rfl⟩ := hr
      rcases Finset.mem_union.mp hx with hx₁ | hx₂
      · exact repV_support v σ h S₁ hv x hx₁
      · exact repE_support es σ nd' S₂ he x hx₂
end

/-- In a valid store, supports sit strictly below `next`. -/
theorem repV_support_lt (v : PVal) (σ : Store) (h : HVal) (S : Finset Nat)
    (hr : RepV σ h v S) (hval : σ.Valid) : ∀ x ∈ S, x < σ.next := by
  intro x hx
  obtain ⟨nd, hnd⟩ := repV_support v σ h S hr x hx
  rcases Nat.lt_or_ge x σ.next with hlt | hge
  · exact hlt
  · rw [hval x hge] at hnd; cases hnd

mutual
/-- Allocation grows `next` and only writes in `[next, next')`. -/
theorem allocVal_inv : ∀ (v : PVal) (σ : Store) (h : HVal) (σ' : Store),
    allocVal v σ = (h, σ') → σ.next ≤ σ'.next ∧
    ∀ x, x < σ.next ∨ σ'.next ≤ x → σ'.mem x = σ.mem x
  | .vnull, σ, h, σ', hE => by
      cases hE; exact ⟨le_refl _, fun _ _ => rfl⟩
  | .vbool _, σ, h, σ', hE => by
      cases hE; exact ⟨le_refl _, fun _ _ => rfl⟩
  | .vint _, σ, h, σ', hE => by
      cases hE; exact ⟨le_refl _, fun _ _ => rfl⟩
  | .vstr _, σ, h, σ', hE => by
      cases hE; exact ⟨le_refl _, fun _ _ => rfl⟩
  | .vlist xs, σ, h, σ', hE => by
      rcases hL : allocList xs σ with ⟨hs, σ₁⟩
      have IH := allocList_inv xs σ hs σ₁ hL
      simp only [allocVal, hL] at hE
      cases hE
      exact IH
  | .vdict es, σ, h, σ', hE => by
      rcases hN : allocEntries es σ with ⟨nd, σ₁⟩
      obtain ⟨IHa, IHb⟩ := allocEntries_inv es σ nd σ₁ hN
      simp only [allocVal, hN, Store.alloc] at hE
      cases hE
      refine ⟨by dsimp only; omega, ?_⟩
      intro x hx
      dsimp only at hx ⊢
      have hxne : x ≠ σ₁.next := by omega
      simp only [hxne, if_false]
      exact IHb x (by omega)

/-- List version of `allocVal_inv`. -/
theorem allocList_inv : ∀ (vs : List PVal) (σ : Store) (hs : List HVal)
    (σ' : Store), allocList vs σ = (hs, σ') → σ.next ≤ σ'.next ∧
    ∀ x, x < σ.next ∨ σ'.next ≤ x → σ'.mem x = σ.mem x
  | [], σ, hs, σ', hE => by
      cases hE; exact ⟨le_refl _, fun _ _ => rfl⟩
  | v :: vs, σ, hs, σ', hE => by
      rcases hV : allocVal v σ with ⟨h, σ₁⟩
      rcases hL : allocList vs σ₁ with ⟨hs₁, σ₂⟩
      obtain ⟨IHa, IHb⟩ := allocVal_inv v σ h σ₁ hV
      obtain ⟨IHa', IHb'⟩ := allocList_inv vs σ₁ hs₁ σ₂ hL
      simp only [allocList, hV, hL] at hE
      cases hE
      refine ⟨by omega, ?_⟩
      intro x hx
      rw [IHb' x (by omega), IHb x (by omega)]

/-- Entries version of `allocVal_inv`. -/
theorem allocEntries_inv : ∀ (es : List (String × PVal)) (σ : Store)
    (nd : Node) (σ' : Store), allocEntries es σ = (nd, σ') → σ.next ≤ σ'.next ∧
    ∀ x, x < σ.next ∨ σ'.next ≤ x → σ'.mem x = σ.mem x
  | [], σ, nd, σ', hE => by
      cases hE; exact ⟨le_refl _, fun _ _ => rfl⟩
  | (k, v) :: es, σ, nd, σ', hE => by
      rcases hV : allocVal v σ with ⟨h, σ₁⟩
      rcases hN : allocEntries es σ₁ with ⟨nd₁, σ₂⟩
      obtain ⟨IHa, IHb⟩ := allocVal_inv v σ h σ₁ hV
      obtain ⟨IHa', IHb'⟩ := allocEntries_inv es σ₁ nd₁ σ₂ hN
      simp only [allocEntries, hV, hN] at hE
      cases hE
      refine ⟨by omega, ?_⟩
      intro x hx
      rw [IHb' x (by omega), IHb x (by omega)]
end

mutual
/-- Allocation produces a representation supported by fresh addresses. -/
theorem allocVal_rep : ∀ (v : PVal) (σ : Store) (h : HVal) (σ' : Store),
    allocVal v σ = (h, σ') →
    ∃ S, RepV σ' h v S ∧ ∀ x ∈ S, σ.next ≤ x ∧ x < σ'.next
  | .vnull, σ, h, σ', hE => by
      cases hE; exact ⟨∅, ⟨rfl, rfl⟩, by simp⟩
  | .vbool _, σ, h, σ', hE => by
      cases hE; exact ⟨∅, ⟨rfl, rfl⟩, by simp⟩
  | .vint _, σ, h, σ', hE => by
      cases hE; exact ⟨∅, ⟨rfl, rfl⟩, by simp⟩
  | .vstr _, σ, h, σ', hE => by
      cases hE; exact ⟨∅, ⟨rfl, rfl⟩, by simp⟩
  | .vlist xs, σ, h, σ', hE => by
      rcases hL : allocList xs σ with ⟨hs, σ₁⟩
      obtain ⟨S, hrep, hbnd⟩ := allocList_rep xs σ hs σ₁ hL
      simp only [allocVal, hL] at hE
      cases hE
      exact ⟨S, ⟨hs, rfl, hrep⟩, hbnd⟩
  | .vdict es, σ, h, σ', hE => by
      rcases hN : allocEntries es σ with ⟨nd, σ₁⟩
      obtain ⟨S₀, hrep, hbnd⟩ := allocEntries_rep es σ nd σ₁ hN
      obtain ⟨IHa, -⟩ := allocEntries_inv es σ nd σ₁ hN
      simp only [allocVal, hN, Store.alloc] at hE
      cases hE
      refine ⟨insert σ₁.next S₀, ⟨σ₁.next, nd, S₀, rfl, by simp, ?_, ?_, rfl⟩, ?_⟩
      · refine repE_frame es σ₁ _ nd S₀ (fun x hx => ?_) hrep
        have : x ≠ σ₁.next := by have := (hbnd x hx).2; omega
        simp [Store.write, this]
      · intro hmem
        have := (hbnd _ hmem).2
        omega
      · intro x hx
        rcases Finset.mem_insert.mp hx with rfl | hx₀
        · exact ⟨IHa, by simp⟩
        · have hb := hbnd x hx₀
          refine ⟨hb.1, ?_⟩
          dsimp only
          omega

/-- List version of `allocVal_rep`. -/
theorem allocList_rep : ∀ (vs : List PVal) (σ : Store) (hs : List HVal)
    (σ' : Store), allocList vs σ = (hs, σ') →
    ∃ S, RepL σ' hs vs S ∧ ∀ x ∈ S, σ.next ≤ x ∧ x < σ'.next
  | [], σ, hs, σ', hE => by
      cases hE; exact ⟨∅, ⟨rfl, rfl⟩, by simp⟩
  | v :: vs, σ, hs, σ', hE => by
      rcases hV : allocVal v σ with ⟨h, σ₁⟩
      rcases hL : allocList vs σ₁ with ⟨hs₁, σ₂⟩
      obtain ⟨S₁, hrep₁, hbnd₁⟩ := allocVal_rep v σ h σ₁ hV
      obtain ⟨S₂, hrep₂, hbnd₂⟩ := allocList_rep vs σ₁ hs₁ σ₂ hL
      obtain ⟨mo₁, -⟩ := allocVal_inv v σ h σ₁ hV
      obtain ⟨mo₂, fr₂⟩ := allocList_inv vs σ₁ hs₁ σ₂ hL
      simp only [allocList, hV, hL] at hE
      cases hE
      refine ⟨S₁ ∪ S₂, ⟨h, hs₁, S₁, S₂, rfl, ?_, hrep₂, ?_, rfl⟩, ?_⟩
      · refine repV_frame v σ₁ _ h S₁ (fun x hx => ?_) hrep₁
        exact fr₂ x (Or.inl (hbnd₁ x hx).2)
      · rw [Finset.disjoint_left]
        intro x hx₁ hx₂
        have := (hbnd₁ x hx₁).2
        have := (hbnd₂ x hx₂).1
        omega
      · intro x hx
        rcases Finset.mem_union.mp hx with hx₁ | hx₂
        · have := hbnd₁ x hx₁
          exact ⟨this.1, by omega⟩
        · have := hbnd₂ x hx₂
          exact ⟨by omega, this.2⟩

/-- Entries version of `allocVal_rep`. -/
theorem allocEntries_rep : ∀ (es : List (String × PVal)) (σ : Store)
    (nd : Node) (σ' : Store), allocEntries es σ = (nd, σ') →
    ∃ S, RepE σ' nd es S ∧ ∀ x ∈ S, σ.next ≤ x ∧ x < σ'.next
  | [], σ, nd, σ', hE => by
      cases hE; exact ⟨∅, ⟨rfl, rfl⟩, by simp⟩
  | (k, v) :: es, σ, nd, σ', hE => by
      rcases hV : allocVal v σ with ⟨h, σ₁⟩
      rcases hN : allocEntries es σ₁ with ⟨nd₁, σ₂⟩
      obtain ⟨S₁, hrep₁, hbnd₁⟩ := allocVal_rep v σ h σ₁ hV
      obtain ⟨S₂, hrep₂, hbnd₂⟩ := allocEntries_rep es σ₁ nd₁ σ₂ hN
      obtain ⟨mo₁, -⟩ := allocVal_inv v σ h σ₁ hV
      obtain ⟨mo₂, fr₂⟩ := allocEntries_inv es σ₁ nd₁ σ₂ hN
      simp only [allocEntries, hV, hN] at hE
      cases hE
      refine ⟨S₁ ∪ S₂, ⟨h, nd₁, S₁, S₂, rfl, ?_, hrep₂, ?_, rfl⟩, ?_⟩
      · refine repV_frame v σ₁ _ h S₁ (fun x hx => ?_) hrep₁
        exact fr₂ x (Or.inl (hbnd₁ x hx).2)
      · rw [Finset.disjoint_left]
        intro x hx₁ hx₂
        have := (hbnd₁ x hx₁).2
        have := (hbnd₂ x hx₂).1
        omega
      · intro x hx
        rcases Finset.mem_union.mp hx with hx₁ | hx₂
        · have := hbnd₁ x hx₁
          exact ⟨this.1, by omega⟩
        · have := hbnd₂ x hx₂
          exact ⟨by omega, this.2⟩
end

/-- Allocation preserves store validity. -/
theorem allocVal_valid (v : PVal) (σ : Store) (h : HVal) (σ' : Store)
    (hE : allocVal v σ = (h, σ')) (hv : σ.Valid) : σ'.Valid := by
  obtain ⟨mo, fr⟩ := allocVal_inv v σ h σ' hE
  intro x hx
  rw [fr x (Or.inr hx)]
  exact hv x (by omega)

/-- Writing back the value already present leaves a node unchanged. -/
theorem setEH_self : ∀ (nd : Node) (k : String) (h : HVal),
    lookupEH nd k = some h → setEH nd k h = nd
  | [], k, h, hl => by simp [lookupEH] at hl
  | (k₁, h₁) :: nd, k, h, hl => by
      by_cases hk : k₁ = k
      · subst hk
        simp [lookupEH] at hl
        simp [setEH, hl]
      · simp [lookupEH, hk] at hl
        simp [setEH, hk, setEH_self nd k h hl]

/-- A reference can only represent a dict tree. -/
theorem repV_href_dict (σ : Store) (a : Nat) (v : PVal) (S : Finset Nat)
    (hr : RepV σ (.href a) v S) : ∃ es, v = .vdict es := by
  cases v with
  | vnull => exact absurd hr.1 (by simp)
  | vbool b => exact absurd hr.1 (by simp)
  | vint n => exact absurd hr.1 (by simp)
  | vstr s => exact absurd hr.1 (by simp)
  | vlist vs => obtain ⟨xs, hx, -⟩ := hr; exact absurd hx (by simp)
  | vdict es => exact ⟨es, rfl⟩

/-- A dict tree can only be represented by a reference. -/
theorem repV_dict_href (σ : Store) (h : HVal) (es : List (String × PVal))
    (S : Finset Nat) (hr : RepV σ h (.vdict es) S) : ∃ a, h = .href a := by
  obtain ⟨a, nd, S₀, ha, -⟩ := hr
  exact ⟨a, ha⟩

/-- Writing below `next` preserves validity. -/
theorem write_valid (σ : Store) (a : Nat) (nd : Node) (ha : a < σ.next)
    (hv : σ.Valid) : (σ.write a nd).Valid := by
  intro x hx
  simp only [Store.write] at hx ⊢
  have : x ≠ a := by omega
  simp only [this, if_false]
  exact hv x hx

/-- Surgery on a represented node at a present key: the key is present on the
pure side with a represented value, and replacing both sides in step keeps
the node represented (for any store agreeing outside the replaced child). -/
theorem repE_set_some : ∀ (es : List (String × PVal)) (σ : Store) (nd : Node)
    (S : Finset Nat) (k : String) (h : HVal),
    RepE σ nd es S → lookupEH nd k = some h →
    ∃ v Sk Sr, lookupE es k = some v ∧ RepV σ h v Sk ∧ Disjoint Sk Sr ∧
      S = Sk ∪ Sr ∧
      ∀ (σ' : Store) (h' : HVal) (v' : PVal) (S' : Finset Nat),
        RepV σ' h' v' S' → (∀ x ∈ Sr, σ'.mem x = σ.mem x) → Disjoint S' Sr →
        RepE σ' (setEH nd k h') (setE es k v') (S' ∪ Sr)
  | [], σ, nd, S, k, h, hr, hl => by
      obtain ⟨rfl, -⟩ := hr
      simp [lookupEH] at hl
  | (k₁, v₁) :: es, σ, nd, S, k, h, hr, hl => by
      obtain ⟨h₁, nd', S₁, S₂, rfl, hv₁, he, hdisj, rfl⟩ := hr
      by_cases hk : k₁ = k
      · subst hk
        simp only [lookupEH, if_pos rfl] at hl
        cases hl
        refine ⟨v₁, S₁, S₂, by simp [lookupE], hv₁, hdisj, rfl, ?_⟩
        intro σ' h' v' S' hv' hag hdisj'
        simp only [setEH, setE, if_pos rfl]
        refine ⟨h', nd', S', S₂, rfl, hv', ?_, hdisj', rfl⟩
        exact repE_frame es σ σ' nd' S₂ hag he
      · simp only [lookupEH, if_neg hk] at hl
        obtain ⟨v, Sk, Sr', hle, hvk, hdisj₁, hS₂, hcont⟩ :=
          repE_set_some es σ nd' S₂ k h he hl
        refine ⟨v, Sk, S₁ ∪ Sr', by simp [lookupE, hk, hle], hvk, ?_, ?_, ?_⟩
        · rw [Finset.disjoint_union_right]
          constructor
          · exact Finset.disjoint_of_subset_left (hS₂ ▸ Finset.subset_union_left)
              hdisj.symm
          · exact hdisj₁
        · rw [hS₂]
          ext x
          simp [Finset.mem_union]
          tauto
        · intro σ' h' v' S' hv' hag hdisj'
          rw [Finset.disjoint_union_right] at hdisj'
          have hrec := hcont σ' h' v' S' hv'
            (fun x hx => hag x (Finset.mem_union_right _ hx)) hdisj'.2
          simp only [setEH, setE, if_neg hk]
          refine ⟨h₁, setEH nd' k h', S₁, S' ∪ Sr', rfl, ?_, hrec, ?_, ?_⟩
          · exact repV_frame v₁ σ σ' h₁ S₁
              (fun x hx => hag x (Finset.mem_union_left _ hx)) hv₁
          · rw [Finset.disjoint_union_right]
            refine ⟨hdisj'.1.symm, ?_⟩
            exact Finset.disjoint_of_subset_right (hS₂ ▸ Finset.subset_union_right)
              hdisj
          · ext x
            simp [Finset.mem_union]
            tauto

/-- Surgery at an absent key: the key is absent on the pure side too, and
appending the entry on both sides keeps the node represented. -/
theorem repE_set_none : ∀ (es : List (String × PVal)) (σ : Store) (nd : Node)
    (S : Finset Nat) (k : String),
    RepE σ nd es S → lookupEH nd k = none →
    lookupE es k = none ∧
      ∀ (σ' : Store) (h' : HVal) (v' : PVal) (S' : Finset Nat),
        RepV σ' h' v' S' → (∀ x ∈ S, σ'.mem x = σ.mem x) → Disjoint S' S →
        RepE σ' (setEH nd k h') (setE es k v') (S' ∪ S)
  | [], σ, nd, S, k, hr, hl => by
      obtain ⟨rfl, rfl⟩ := hr
      refine ⟨by simp [lookupE], ?_⟩
      intro σ' h' v' S' hv' hag hdisj
      simp only [setEH, setE]
      exact ⟨h', [], S', ∅, rfl, hv', ⟨rfl, rfl⟩, by simp, by simp⟩
  | (k₁, v₁) :: es, σ, nd, S, k, hr, hl => by
      obtain ⟨h₁, nd', S₁, S₂, rfl, hv₁, he, hdisj, rfl⟩ := hr
      have hk : k₁ ≠ k := by
        intro hk
        subst hk
        simp [lookupEH] at hl
      simp only [lookupEH, if_neg hk] at hl
      obtain ⟨hle, hcont⟩ := repE_set_none es σ nd' S₂ k he hl
      refine ⟨by simp [lookupE, hk, hle], ?_⟩
      intro σ' h' v' S' hv' hag hdisj'
      rw [Finset.disjoint_union_right] at hdisj'
      have hrec := hcont σ' h' v' S' hv'
        (fun x hx => hag x (Finset.mem_union_right _ hx)) hdisj'.2
      simp only [setEH, setE, if_neg hk]
      refine ⟨h₁, setEH nd' k h', S₁, S' ∪ S₂, rfl, ?_, hrec, ?_, ?_⟩
      · exact repV_frame v₁ σ σ' h₁ S₁
          (fun x hx => hag x (Finset.mem_union_left _ hx)) hv₁
      · rw [Finset.disjoint_union_right]
        exact ⟨hdisj'.1.symm, hdisj⟩
      · ext x
        simp [Finset.mem_union]
        tauto

/-- Unfolding: empty override leaves the base unchanged (pure). -/
theorem deepUpdateP_nil (base : List (String × PVal)) :
    deepUpdateP base [] = base := by
  simp [deepUpdateP]

/-- Unfolding: dict-onto-dict override entry merges recursively (pure). -/
theorem deepUpdateP_cons_merge (base : List (String × PVal)) (k : String)
    (sub bsub : List (String × PVal)) (rest : List (String × PVal))
    (h : lookupE base k = some (.vdict bsub)) :
    deepUpdateP base ((k, .vdict sub) :: rest) =
      deepUpdateP (setE base k (.vdict (deepUpdateP bsub sub))) rest := by
  simp [deepUpdateP, h]

/-- Unfolding: any other override entry is assigned wholesale (pure). -/
theorem deepUpdateP_cons_set (base : List (String × PVal)) (k : String)
    (v : PVal) (rest : List (String × PVal))
    (hcond : (∀ sub, v ≠ PVal.vdict sub) ∨
      (∀ bsub, lookupE base k ≠ some (.vdict bsub))) :
    deepUpdateP base ((k, v) :: rest) = deepUpdateP (setE base k v) rest := by
  cases v with
  | vdict sub =>
      rcases hcond with hc | hc
      · exact absurd rfl (hc sub)
      · rcases hl : lookupE base k with _ | v₀
        · simp [deepUpdateP, hl]
        · cases v₀ with
          | vdict bs => exact absurd hl (hc bs)
          | vnull => simp [deepUpdateP, hl]
          | vbool b => simp [deepUpdateP, hl]
          | vint n => simp [deepUpdateP, hl]
          | vstr s => simp [deepUpdateP, hl]
          | vlist xs => simp [deepUpdateP, hl]
  | vnull => simp [deepUpdateP]
  | vbool b => simp [deepUpdateP]
  | vint n => simp [deepUpdateP]
  | vstr s => simp [deepUpdateP]
  | vlist xs => simp [deepUpdateP]

/-- Unfolding: empty override leaves the store unchanged (heap). -/
theorem deepUpdateH_nil (a : Nat) (σ : Store) : deepUpdateH [] a σ = some σ := by
  simp [deepUpdateH]

/-- Unfolding: dict-onto-dict override entry recurses into the child object
(heap). -/
theorem deepUpdateH_cons_merge (k : String) (sub rest : List (String × PVal))
    (a : Nat) (σ : Store) (nd : Node) (a₂ : Nat)
    (hm : σ.mem a = some nd) (hl : lookupEH nd k = some (.href a₂)) :
    deepUpdateH ((k, .vdict sub) :: rest) a σ =
      match deepUpdateH sub a₂ σ with
      | none => none
      | some σ' => deepUpdateH rest a σ' := by
  simp [deepUpdateH, hm, hl]

/-- Unfolding: any other override entry is assigned in place, materialising
the override value (heap). -/
theorem deepUpdateH_cons_set (k : String) (v : PVal)
    (rest : List (String × PVal)) (a : Nat) (σ : Store) (nd : Node)
    (hm : σ.mem a = some nd)
    (hcond : (∀ sub, v ≠ PVal.vdict sub) ∨
      (∀ a₂, lookupEH nd k ≠ some (.href a₂))) :
    deepUpdateH ((k, v) :: rest) a σ =
      deepUpdateH rest a
        ((allocVal v σ).2.write a (setEH nd k (allocVal v σ).1)) := by
  cases v with
  | vdict sub =>
      rcases hcond with hc | hc
      · exact absurd rfl (hc sub)
      · rcases hl : lookupEH nd k with _ | h₀
        · simp [deepUpdateH, hm, hl]
        · cases h₀ with
          | href a₂ => exact absurd hl (hc a₂)
          | hnull => simp [deepUpdateH, hm, hl]
          | hbool b => simp [deepUpdateH, hm, hl]
          | hint n => simp [deepUpdateH, hm, hl]
          | hstr s => simp [deepUpdateH, hm, hl]
          | hlist xs => simp [deepUpdateH, hm, hl]
  | vnull => simp [deepUpdateH, hm]
  | vbool b => simp [deepUpdateH, hm]
  | vint n => simp [deepUpdateH, hm]
  | vstr s => simp [deepUpdateH, hm]
  | vlist xs => simp [deepUpdateH, hm]

/-- Main simulation: the in-place `deep_update` on a represented (tree-shaped)
dict object succeeds, leaves the object representing the pure merge
`deepUpdateP`, keeps its support above `B` and inside the old support plus the
fresh region, writes nothing outside the object's support and the fresh
region, and preserves validity. -/
theorem deepUpdateH_main : ∀ (n : Nat) (ov : List (String × PVal)) (a : Nat)
    (σ : Store) (es : List (String × PVal)) (S : Finset Nat) (B : Nat),
    sizeOf ov ≤ n → σ.Valid →
    RepV σ (.href a) (.vdict es) S → (∀ x ∈ S, B ≤ x) → B ≤ σ.next →
    ∃ σ' S', deepUpdateH ov a σ = some σ' ∧
      RepV σ' (.href a) (.vdict (deepUpdateP es ov)) S' ∧
      (∀ x ∈ S', B ≤ x) ∧
      S' ⊆ S ∪ Finset.Ico σ.next σ'.next ∧
      (∀ x, x ∉ S → x < σ.next → σ'.mem x = σ.mem x) ∧
      σ'.Valid ∧ σ.next ≤ σ'.next := by
  intro n
  induction n with
  | zero =>
      intro ov a σ es S B hsz
      exfalso
      cases ov <;> simp at hsz
  | succ n IH =>
      intro ov a σ es S B hsz hval hrep hB hBn
      obtain ⟨a', nd, S₀, heq, hmem, he, hna, hS⟩ := hrep
      injection heq with heq'
      subst heq'
      subst hS
      have hSlt : ∀ x ∈ insert a S₀, x < σ.next :=
        repV_support_lt (.vdict es) σ (.href a) _
          ⟨a, nd, S₀, rfl, hmem, he, hna, rfl⟩ hval
      have haS : a ∈ insert a S₀ := Finset.mem_insert_self a S₀
      have halt : a < σ.next := hSlt a haS
      cases ov with
      | nil =>
          refine ⟨σ, insert a S₀, deepUpdateH_nil a σ, ?_, hB, ?_,
            fun x _ _ => rfl, hval, le_refl _⟩
          · rw [deepUpdateP_nil]
            exact ⟨a, nd, S₀, rfl, hmem, he, hna, rfl⟩
          · exact Finset.subset_union_left
      | cons kv rest =>
        obtain ⟨k, v⟩ := kv
        have hszr : sizeOf rest ≤ n := by simp at hsz; omega
        rcases hvl : lookupEH nd k with _ | h₀
        · -- key absent in the node: assign branch, entry appended
          obtain ⟨hle, hcont⟩ := repE_set_none es σ nd S₀ k he hvl
          rcases hA : allocVal v σ with ⟨h, σA⟩
          obtain ⟨Sv, hrepv, hbndv⟩ := allocVal_rep v σ h σA hA
          obtain ⟨monoA, frA⟩ := allocVal_inv v σ h σA hA
          have hvalA := allocVal_valid v σ h σA hA hval
          have hmemB : ∀ x, x ≠ a →
              (σA.write a (setEH nd k h)).mem x = σA.mem x := by
            intro x hx; simp [Store.write, hx]
          have hmemBa : (σA.write a (setEH nd k h)).mem a =
              some (setEH nd k h) := by simp [Store.write]
          have hBAnext : (σA.write a (setEH nd k h)).next = σA.next := rfl
          have hvalB : (σA.write a (setEH nd k h)).Valid :=
            write_valid σA a _ (by omega) hvalA
          have hrepB : RepV (σA.write a (setEH nd k h)) (.href a)
              (.vdict (setE es k v)) (insert a (Sv ∪ S₀)) := by
            refine ⟨a, setEH nd k h, Sv ∪ S₀, rfl, hmemBa, ?_, ?_, rfl⟩
            · refine hcont (σA.write a (setEH nd k h)) h v Sv ?_ ?_ ?_
              · refine repV_frame v σA _ h Sv (fun x hx => ?_) hrepv
                exact hmemB x (by have := (hbndv x hx).1; omega)
              · intro x hx
                have hxa : x ≠ a := fun hxa => hna (hxa ▸ hx)
                rw [hmemB x hxa]
                exact frA x (Or.inl (hSlt x (Finset.mem_insert_of_mem hx)))
              · rw [Finset.disjoint_left]
                intro x hx hx₀
                have h1 := (hbndv x hx).1
                have h2 := hSlt x (Finset.mem_insert_of_mem hx₀)
                omega
            · intro hmem'
              rcases Finset.mem_union.mp hmem' with hx | hx
              · have := (hbndv a hx).1; omega
              · exact hna hx
          obtain ⟨σ₂, S₂, hstep, hrep₂, hB₂, hsub₂, hfr₂, hval₂, hmono₂⟩ :=
            IH rest a (σA.write a (setEH nd k h)) (setE es k v)
              (insert a (Sv ∪ S₀)) B hszr hvalB hrepB
              (by intro x hx
                  rcases Finset.mem_insert.mp hx with rfl | hx'
                  · exact hB _ (Finset.mem_insert_self _ _)
                  · rcases Finset.mem_union.mp hx' with hxv | hx₀
                    · have := (hbndv x hxv).1; omega
                    · exact hB x (Finset.mem_insert_of_mem hx₀))
              (by rw [hBAnext]; omega)
          refine ⟨σ₂, S₂, ?_, ?_, hB₂, ?_, ?_, hval₂, by rw [hBAnext] at hmono₂; omega⟩
          · rw [deepUpdateH_cons_set k v rest a σ nd hmem
              (Or.inr (fun a₂ h₂ => by rw [hvl] at h₂; cases h₂))]
            simp only [hA]
            exact hstep
          · rw [deepUpdateP_cons_set es k v rest
              (Or.inr (fun bs hbs => by rw [hle] at hbs; cases hbs))]
            exact hrep₂
          · intro x hx
            have hx2 := hsub₂ hx
            rw [hBAnext] at hx2
            simp only [Finset.mem_union, Finset.mem_insert, Finset.mem_Ico]
              at hx2 ⊢
            rcases hx2 with (rfl | hx') | hico
            · exact Or.inl (Or.inl rfl)
            · rcases hx' with hxv | hx₀
              · have := hbndv x hxv
                right
                constructor
                · omega
                · have : σA.next ≤ σ₂.next := by rw [hBAnext] at hmono₂; omega
                  omega
              · exact Or.inl (Or.inr hx₀)
            · right; omega
          · intro x hxS hxlt
            have hxa : x ≠ a := fun hh => hxS (hh ▸ Finset.mem_insert_self a S₀)
            have hx₀ : x ∉ S₀ := fun hh => hxS (Finset.mem_insert_of_mem hh)
            have hnotin : x ∉ insert a (Sv ∪ S₀) := by
              intro hh
              rcases Finset.mem_insert.mp hh with rfl | hh'
              · exact hxa rfl
              · rcases Finset.mem_union.mp hh' with hxv | hxx
                · have := (hbndv x hxv).1; omega
                · exact hx₀ hxx
            have h2 := hfr₂ x hnotin (by rw [hBAnext]; omega)
            rw [h2, hmemB x hxa, frA x (Or.inl hxlt)]
        · by_cases hmerge : ∃ sub a₂, v = PVal.vdict sub ∧ h₀ = HVal.href a₂
          · -- both sides dicts: recursive merge into the existing child
            obtain ⟨sub, a₂, rfl, rfl⟩ := hmerge
            obtain ⟨v₀, Sk, Sr, hle, hvk, hdisjk, hS₀eq, hcont⟩ :=
              repE_set_some es σ nd S₀ k (.href a₂) he hvl
            subst hS₀eq
            obtain ⟨bsub, rfl⟩ := repV_href_dict σ a₂ v₀ Sk hvk
            have hszs : sizeOf sub ≤ n := by simp at hsz; omega
            have hSk_lt : ∀ x ∈ Sk, x < σ.next := fun x hx =>
              hSlt x (Finset.mem_insert_of_mem (Finset.mem_union_left Sr hx))
            have hSr_lt : ∀ x ∈ Sr, x < σ.next := fun x hx =>
              hSlt x (Finset.mem_insert_of_mem (Finset.mem_union_right Sk hx))
            have haSk : a ∉ Sk := fun hh =>
              hna (Finset.mem_union_left Sr hh)
            have haSr : a ∉ Sr := fun hh =>
              hna (Finset.mem_union_right Sk hh)
            obtain ⟨σ₁, Sk', hstep₁, hrep₁, hBk', hsub₁, hfr₁, hval₁, hmono₁⟩ :=
              IH sub a₂ σ bsub Sk B hszs hval hvk
                (fun x hx => hB x (Finset.mem_insert_of_mem
                  (Finset.mem_union_left Sr hx))) hBn
            have hmem₁ : σ₁.mem a = some nd := by
              rw [hfr₁ a haSk halt]; exact hmem
            have hSk'new : ∀ x ∈ Sk', x ∈ Sk ∨ (σ.next ≤ x ∧ x < σ₁.next) := by
              intro x hx
              have := hsub₁ hx
              rcases Finset.mem_union.mp this with h1 | h2
              · exact Or.inl h1
              · exact Or.inr (Finset.mem_Ico.mp h2)
            have hrepB : RepV σ₁ (.href a)
                (.vdict (setE es k (.vdict (deepUpdateP bsub sub))))
                (insert a (Sk' ∪ Sr)) := by
              refine ⟨a, nd, Sk' ∪ Sr, rfl, hmem₁, ?_, ?_, rfl⟩
              · have hrec := hcont σ₁ (.href a₂) (.vdict (deepUpdateP bsub sub))
                  Sk' hrep₁
                  (fun x hx => hfr₁ x (Finset.disjoint_right.mp hdisjk hx)
                    (hSr_lt x hx))
                  (by rw [Finset.disjoint_left]
                      intro x hxk' hxr
                      rcases hSk'new x hxk' with h1 | h2
                      · exact (Finset.disjoint_left.mp hdisjk h1) hxr
                      · have := hSr_lt x hxr; omega)
                rwa [setEH_self nd k (.href a₂) hvl] at hrec
              · intro hh
                rcases Finset.mem_union.mp hh with hk' | hr
                · rcases hSk'new a hk' with h1 | h2
                  · exact haSk h1
                  · omega
                · exact haSr hr
            obtain ⟨σ₂, S₂, hstep₂, hrep₂, hB₂, hsub₂, hfr₂, hval₂, hmono₂⟩ :=
              IH rest a σ₁ _ (insert a (Sk' ∪ Sr)) B hszr hval₁ hrepB
                (by intro x hx
                    rcases Finset.mem_insert.mp hx with rfl | hx'
                    · exact hB _ (Finset.mem_insert_self _ _)
                    · rcases Finset.mem_union.mp hx' with h1 | h2
                      · exact hBk' x h1
                      · exact hB x (Finset.mem_insert_of_mem
                          (Finset.mem_union_right Sk h2)))
                (by omega)
            refine ⟨σ₂, S₂, ?_, ?_, hB₂, ?_, ?_, hval₂, by omega⟩
            · rw [deepUpdateH_cons_merge k sub rest a σ nd a₂ hmem hvl, hstep₁]
              exact hstep₂
            · rw [deepUpdateP_cons_merge es k sub bsub rest hle]
              exact hrep₂
            · intro x hx
              have hx2 := hsub₂ hx
              simp only [Finset.mem_union, Finset.mem_insert, Finset.mem_Ico]
                at hx2 ⊢
              rcases hx2 with (rfl | hx') | hico
              · exact Or.inl (Or.inl rfl)
              · rcases hx' with h1 | h2
                · rcases hSk'new x h1 with hk2 | hfresh
                  · exact Or.inl (Or.inr (Or.inl hk2))
                  · right; omega
                · exact Or.inl (Or.inr (Or.inr h2))
              · right; omega
            · intro x hxS hxlt
              have hxa : x ≠ a := fun hh =>
                hxS (hh ▸ Finset.mem_insert_self a (Sk ∪ Sr))
              have hx₀ : x ∉ Sk ∪ Sr := fun hh =>
                hxS (Finset.mem_insert_of_mem hh)
              have hxk : x ∉ Sk := fun hh => hx₀ (Finset.mem_union_left Sr hh)
              have hxr : x ∉ Sr := fun hh => hx₀ (Finset.mem_union_right Sk hh)
              have hnotin : x ∉ insert a (Sk' ∪ Sr) := by
                intro hh
                rcases Finset.mem_insert.mp hh with rfl | hh'
                · exact hxa rfl
                · rcases Finset.mem_union.mp hh' with h1 | h2
                  · rcases hSk'new x h1 with hk2 | hfresh
                    · exact hxk hk2
                    · omega
                  · exact hxr h2
              have h2 := hfr₂ x hnotin (by omega)
              rw [h2, hfr₁ x hxk hxlt]
          · -- key present but not a dict-onto-dict pair: assign branch
            obtain ⟨v₀, Sk, Sr, hle, hvk, hdisjk, hS₀eq, hcont⟩ :=
              repE_set_some es σ nd S₀ k h₀ he hvl
            subst hS₀eq
            have hpure : (∀ sub, v ≠ PVal.vdict sub) ∨
                (∀ bs, lookupE es k ≠ some (.vdict bs)) := by
              cases v with
              | vdict sub =>
                  right
                  intro bs hbs
                  rw [hle] at hbs
                  injection hbs with hbs'
                  subst hbs'
                  obtain ⟨a₂, rfl⟩ := repV_dict_href σ h₀ bs Sk hvk
                  exact hmerge ⟨sub, a₂, rfl, rfl⟩
              | vnull => exact Or.inl (fun _ h => by cases h)
              | vbool b => exact Or.inl (fun _ h => by cases h)
              | vint n => exact Or.inl (fun _ h => by cases h)
              | vstr s => exact Or.inl (fun _ h => by cases h)
              | vlist xs => exact Or.inl (fun _ h => by cases h)
            have hheap : (∀ sub, v ≠ PVal.vdict sub) ∨
                (∀ a₂, lookupEH nd k ≠ some (.href a₂)) := by
              cases v with
              | vdict sub =>
                  right
                  intro a₂ h₂
                  rw [hvl] at h₂
                  injection h₂ with h₂'
                  exact hmerge ⟨sub, a₂, rfl, h₂'⟩
              | vnull => exact Or.inl (fun _ h => by cases h)
              | vbool b => exact Or.inl (fun _ h => by cases h)
              | vint n => exact Or.inl (fun _ h => by cases h)
              | vstr s => exact Or.inl (fun _ h => by cases h)
              | vlist xs => exact Or.inl (fun _ h => by cases h)
            have hSr_lt : ∀ x ∈ Sr, x < σ.next := fun x hx =>
              hSlt x (Finset.mem_insert_of_mem (Finset.mem_union_right Sk hx))
            have haSr : a ∉ Sr := fun hh =>
              hna (Finset.mem_union_right Sk hh)
            rcases hA : allocVal v σ with ⟨h, σA⟩
            obtain ⟨Sv, hrepv, hbndv⟩ := allocVal_rep v σ h σA hA
            obtain ⟨monoA, frA⟩ := allocVal_inv v σ h σA hA
            have hvalA := allocVal_valid v σ h σA hA hval
            have hmemB : ∀ x, x ≠ a →
                (σA.write a (setEH nd k h)).mem x = σA.mem x := by
              intro x hx; simp [Store.write, hx]
            have hmemBa : (σA.write a (setEH nd k h)).mem a =
                some (setEH nd k h) := by simp [Store.write]
            have hBAnext : (σA.write a (setEH nd k h)).next = σA.next := rfl
            have hvalB : (σA.write a (setEH nd k h)).Valid :=
              write_valid σA a _ (by omega) hvalA
            have hrepB : RepV (σA.write a (setEH nd k h)) (.href a)
                (.vdict (setE es k v)) (insert a (Sv ∪ Sr)) := by
              refine ⟨a, setEH nd k h, Sv ∪ Sr, rfl, hmemBa, ?_, ?_, rfl⟩
              · refine hcont (σA.write a (setEH nd k h)) h v Sv ?_ ?_ ?_
                · refine repV_frame v σA _ h Sv (fun x hx => ?_) hrepv
                  exact hmemB x (by have := (hbndv x hx).1; omega)
                · intro x hx
                  have hxa : x ≠ a := fun hxa => haSr (hxa ▸ hx)
                  rw [hmemB x hxa]
                  exact frA x (Or.inl (hSr_lt x hx))
                · rw [Finset.disjoint_left]
                  intro x hx hx₀
                  have h1 := (hbndv x hx).1
                  have h2 := hSr_lt x hx₀
                  omega
              · intro hmem'
                rcases Finset.mem_union.mp hmem' with hx | hx
                · have := (hbndv a hx).1; omega
                · exact haSr hx
            obtain ⟨σ₂, S₂, hstep, hrep₂, hB₂, hsub₂, hfr₂, hval₂, hmono₂⟩ :=
              IH rest a (σA.write a (setEH nd k h)) (setE es k v)
                (insert a (Sv ∪ Sr)) B hszr hvalB hrepB
                (by intro x hx
                    rcases Finset.mem_insert.mp hx with rfl | hx'
                    · exact hB _ (Finset.mem_insert_self _ _)
                    · rcases Finset.mem_union.mp hx' with hxv | hx₀
                      · have := (hbndv x hxv).1; omega
                      · exact hB x (Finset.mem_insert_of_mem
                          (Finset.mem_union_right Sk hx₀)))
                (by rw [hBAnext]; omega)
            refine ⟨σ₂, S₂, ?_, ?_, hB₂, ?_, ?_, hval₂,
              by rw [hBAnext] at hmono₂; omega⟩
            · rw [deepUpdateH_cons_set k v rest a σ nd hmem hheap]
              simp only [hA]
              exact hstep
            · rw [deepUpdateP_cons_set es k v rest hpure]
              exact hrep₂
            · intro x hx
              have hx2 := hsub₂ hx
              rw [hBAnext] at hx2
              simp only [Finset.mem_union, Finset.mem_insert, Finset.mem_Ico]
                at hx2 ⊢
              rcases hx2 with (rfl | hx') | hico
              · exact Or.inl (Or.inl rfl)
              · rcases hx' with hxv | hx₀
                · have := hbndv x hxv
                  right
                  constructor
                  · omega
                  · have : σA.next ≤ σ₂.next := by
                      rw [hBAnext] at hmono₂; omega
                    omega
                · exact Or.inl (Or.inr (Or.inr hx₀))
              · right; omega
            · intro x hxS hxlt
              have hxa : x ≠ a := fun hh =>
                hxS (hh ▸ Finset.mem_insert_self a (Sk ∪ Sr))
              have hx₀ : x ∉ Sk ∪ Sr := fun hh =>
                hxS (Finset.mem_insert_of_mem hh)
              have hxr : x ∉ Sr := fun hh => hx₀ (Finset.mem_union_right Sk hh)
              have hnotin : x ∉ insert a (Sv ∪ Sr) := by
                intro hh
                rcases Finset.mem_insert.mp hh with rfl | hh'
                · exact hxa rfl
                · rcases Finset.mem_union.mp hh' with hxv | hxx
                  · have := (hbndv x hxv).1; omega
                  · exact hxr hxx
              have h2 := hfr₂ x hnotin (by rw [hBAnext]; omega)
              rw [h2, hmemB x hxa, frA x (Or.inl hxlt)]

/-- Setting one key does not disturb lookups of other keys. -/
theorem lookupE_setE_ne : ∀ (base : List (String × PVal)) (k₁ : String)
    (w : PVal) (k : String), k₁ ≠ k → lookupE (setE base k₁ w) k = lookupE base k
  | [], k₁, w, k, hne => by simp [setE, lookupE, hne]
  | (k₂, v₂) :: rest, k₁, w, k, hne => by
      by_cases h2 : k₂ = k₁
      · subst h2
        simp [setE, lookupE, hne]
      · simp only [setE, if_neg h2, lookupE]
        by_cases h3 : k₂ = k
        · simp [h3]
        · simp [h3, lookupE_setE_ne rest k₁ w k hne]

/-- Setting a key makes its lookup return the new value. -/
theorem lookupE_setE_self : ∀ (base : List (String × PVal)) (k : String)
    (w : PVal), lookupE (setE base k w) k = some w
  | [], k, w => by simp [setE, lookupE]
  | (k₂, v₂) :: rest, k, w => by
      by_cases h2 : k₂ = k
      · subst h2
        simp [setE, lookupE]
      · simp [setE, h2, lookupE, lookupE_setE_self rest k w]

/-- Each `deep_update` step rewrites exactly one key of the base. -/
theorem deepUpdateP_cons_eq (base : List (String × PVal)) (k₁ : String)
    (v : PVal) (rest : List (String × PVal)) :
    ∃ w, deepUpdateP base ((k₁, v) :: rest) = deepUpdateP (setE base k₁ w) rest := by
  by_cases hc : ∃ sub bsub, v = PVal.vdict sub ∧
      lookupE base k₁ = some (.vdict bsub)
  · obtain ⟨sub, bsub, rfl, hl⟩ := hc
    exact ⟨_, deepUpdateP_cons_merge base k₁ sub bsub rest hl⟩
  · refine ⟨v, deepUpdateP_cons_set base k₁ v rest ?_⟩
    cases v with
    | vdict sub =>
        right
        intro bs hbs
        exact hc ⟨sub, bs, rfl, hbs⟩
    | vnull => exact Or.inl (fun _ h => by cases h)
    | vbool b => exact Or.inl (fun _ h => by cases h)
    | vint n => exact Or.inl (fun _ h => by cases h)
    | vstr s => exact Or.inl (fun _ h => by cases h)
    | vlist xs => exact Or.inl (fun _ h => by cases h)

/-- Keys not mentioned in the override keep their base value. -/
theorem deepUpdateP_not_mem : ∀ (ov base : List (String × PVal)) (k : String),
    k ∉ ov.map Prod.fst → lookupE (deepUpdateP base ov) k = lookupE base k
  | [], base, k, _ => by rw [deepUpdateP_nil]
  | (k₁, v) :: rest, base, k, hk => by
      simp only [List.map_cons, List.mem_cons] at hk
      push_neg at hk
      obtain ⟨w, hw⟩ := deepUpdateP_cons_eq base k₁ v rest
      rw [hw, deepUpdateP_not_mem rest _ k hk.2,
        lookupE_setE_ne base k₁ w k (fun h => hk.1 h.symm)]

/-- A key mapped to dicts on both sides ends up with the recursive merge
(override keys unique, as Python dict keys are). -/
theorem deepUpdateP_merge : ∀ (ov : List (String × PVal)),
    (ov.map Prod.fst).Nodup →
    ∀ (base : List (String × PVal)) (k : String)
      (d o : List (String × PVal)),
      lookupE base k = some (.vdict d) → lookupE ov k = some (.vdict o) →
      lookupE (deepUpdateP base ov) k = some (.vdict (deepUpdateP d o))
  | [], _, base, k, d, o, _, hov => by simp [lookupE] at hov
  | (k₁, v₁) :: rest, hnd, base, k, d, o, hb, hov => by
      simp only [List.map_cons, List.nodup_cons] at hnd
      by_cases hk : k₁ = k
      · subst hk
        simp only [lookupE, if_pos rfl] at hov
        cases hov
        rw [deepUpdateP_cons_merge base k₁ o d rest hb,
          deepUpdateP_not_mem rest _ k₁ hnd.1, lookupE_setE_self]
      · simp only [lookupE, if_neg hk] at hov
        rw [(deepUpdateP_cons_eq base k₁ v₁ rest).choose_spec,
          deepUpdateP_merge rest hnd.2 _ k d o
            (by rw [lookupE_setE_ne base k₁ _ k hk]; exact hb) hov]

/-- A key whose pair is not dict-onto-dict is replaced wholesale by the
override value (override keys unique). -/
theorem deepUpdateP_replace : ∀ (ov : List (String × PVal)),
    (ov.map Prod.fst).Nodup →
    ∀ (base : List (String × PVal)) (k : String) (v : PVal),
      lookupE ov k = some v →
      ((∀ sub, v ≠ PVal.vdict sub) ∨
        (∀ bs, lookupE base k ≠ some (.vdict bs))) →
      lookupE (deepUpdateP base ov) k = some v
  | [], _, base, k, v, hov, _ => by simp [lookupE] at hov
  | (k₁, v₁) :: rest, hnd, base, k, v, hov, hcond => by
      simp only [List.map_cons, List.nodup_cons] at hnd
      by_cases hk : k₁ = k
      · subst hk
        simp only [lookupE, if_pos rfl] at hov
        cases hov
        rw [deepUpdateP_cons_set base k₁ v₁ rest hcond,
          deepUpdateP_not_mem rest _ k₁ hnd.1, lookupE_setE_self]
      · simp only [lookupE, if_neg hk] at hov
        obtain ⟨w, hw⟩ := deepUpdateP_cons_eq base k₁ v₁ rest
        rw [hw, deepUpdateP_replace rest hnd.2 _ k v hov ?_]
        rcases hcond with hc | hc
        · exact Or.inl hc
        · refine Or.inr (fun bs hbs => hc bs ?_)
          rwa [lookupE_setE_ne base k₁ w k hk] at hbs

/-- The empty store is valid. -/
theorem emptyStore_valid : emptyStore.Valid := fun _ _ => rfl

/-- `copy.deepcopy` of a readable dict object behaves exactly like a fresh
materialisation of the tree it holds. -/
theorem deepcopyDict_alloc (σ : Store) (f a : Nat) (nd : Node)
    (es : List (String × PVal)) (hm : σ.mem a = some nd)
    (hr : readEntries σ f nd = some es) :
    ∃ a' σc, deepcopyDict σ f a = some (a', σc) ∧
      allocVal (.vdict es) σ = (.href a', σc) := by
  rcases hE : allocEntries es σ with ⟨nd', σ₁⟩
  refine ⟨σ₁.next,
    ⟨fun x => if x = σ₁.next then some nd' else σ₁.mem x, σ₁.next + 1⟩, ?_, ?_⟩
  · simp [deepcopyDict, hm, hr, hE, Store.alloc]
  · simp [allocVal, hE, Store.alloc]

/-- C2: `Core._apply_overrides` returns a new record (a fresh object, distinct
from and sharing nothing with the argument), never mutates the original
record nor any other pre-existing object, and computes the recursive merge
`deepUpdateP`: a key holding mappings on both sides is merged key-wise with
unmentioned sibling keys preserved, and every other pairing (lists included)
is replaced wholesale by the override value. -/
theorem C2_applyOverrides_correct
    (σ₀ : Store) (es ov : List (String × PVal)) (a : Nat) (σ : Store) (f : Nat)
    (hval₀ : σ₀.Valid)
    (halloc : allocVal (.vdict es) σ₀ = (.href a, σ))
    (hf : pdepthEntries es + 1 ≤ f)
    (hnd : (ov.map Prod.fst).Nodup) :
    ∃ a' σ',
      applyOverridesH σ f a ov = some (a', σ') ∧
      a' ≠ a ∧
      (∀ x, x < σ.next → σ'.mem x = σ.mem x) ∧
      (∀ g, pdepthEntries es + 1 ≤ g →
        readVal σ' g (.href a) = some (.vdict es)) ∧
      (∀ g, pdepthEntries (deepUpdateP es ov) + 1 ≤ g →
        readVal σ' g (.href a') = some (.vdict (deepUpdateP es ov))) ∧
      (∀ k d o, lookupE es k = some (.vdict d) → lookupE ov k = some (.vdict o) →
        lookupE (deepUpdateP es ov) k = some (.vdict (deepUpdateP d o))) ∧
      (∀ (base o : List (String × PVal)) (k₂ : String), k₂ ∉ o.map Prod.fst →
        lookupE (deepUpdateP base o) k₂ = lookupE base k₂) ∧
      (∀ k v, lookupE ov k = some v →
        ((∀ sub, v ≠ PVal.vdict sub) ∨ (∀ bs, lookupE es k ≠ some (.vdict bs))) →
        lookupE (deepUpdateP es ov) k = some v) := by
  obtain ⟨S, hrep, hbnd⟩ := allocVal_rep (.vdict es) σ₀ (.href a) σ halloc
  have hvalσ := allocVal_valid _ _ _ _ halloc hval₀
  obtain ⟨a₁, nd, S₀, heq, hmem, he, hna, hS⟩ := hrep
  injection heq with heq'
  subst heq'
  subst hS
  have haS : a ∈ insert a S₀ := Finset.mem_insert_self a S₀
  have halt : a < σ.next := (hbnd a haS).2
  have hread_nd : readEntries σ f nd = some es :=
    repE_read es σ nd S₀ he f (by omega)
  obtain ⟨a', σc, hdc, hallocc⟩ := deepcopyDict_alloc σ f a nd es hmem hread_nd
  obtain ⟨Sc, hrepc, hbndc⟩ := allocVal_rep (.vdict es) σ (.href a') σc hallocc
  have hvalc := allocVal_valid _ _ _ _ hallocc hvalσ
  obtain ⟨monoc, frc⟩ := allocVal_inv _ _ _ _ hallocc
  have ha'Sc : a' ∈ Sc := by
    obtain ⟨a₂, nd', Sc₀, heq2, -, -, -, hSc⟩ := hrepc
    injection heq2 with heq2'
    subst heq2'
    exact hSc ▸ Finset.mem_insert_self a' Sc₀
  have ha'ge : σ.next ≤ a' := (hbndc a' ha'Sc).1
  obtain ⟨σf, Sf, hstep, hrepf, hBf, hsubf, hfrf, hvalf, hmonof⟩ :=
    deepUpdateH_main (sizeOf ov) ov a' σc es Sc σ.next (le_refl _) hvalc hrepc
      (fun x hx => (hbndc x hx).1) monoc
  have hnomut : ∀ x, x < σ.next → σf.mem x = σ.mem x := by
    intro x hx
    have h1 : x ∉ Sc := fun hh => by have := (hbndc x hh).1; omega
    rw [hfrf x h1 (by omega), frc x (Or.inl hx)]
  refine ⟨a', σf, ?_, by omega, hnomut, ?_, ?_,
    fun k d o hb ho => deepUpdateP_merge ov hnd es k d o hb ho,
    fun base o k₂ h => deepUpdateP_not_mem o base k₂ h,
    fun k v hv hc => deepUpdateP_replace ov hnd es k v hv hc⟩
  · simp [applyOverridesH, hdc, hstep]
  · intro g hg
    have hrepS : RepV σf (.href a) (.vdict es) (insert a S₀) := by
      refine repV_frame (.vdict es) σ σf (.href a) (insert a S₀)
        (fun x hx => hnomut x (hbnd x hx).2) ⟨a, nd, S₀, rfl, hmem, he, hna, rfl⟩
    exact repV_read (.vdict es) σf (.href a) _ hrepS g (by simp [pdepth]; omega)
  · intro g hg
    exact repV_read _ σf (.href a') Sf hrepf g (by simp [pdepth]; omega)

/-- Concrete profile record for the override-merge witness. -/
def c2Es : List (String × PVal) :=
  [("display_name", .vstr "a"), ("env_vars", .vdict [("Y", .vstr "2")])]

/-- Concrete override mapping for the override-merge witness. -/
def c2Ov : List (String × PVal) :=
  [("env_vars", .vdict [("X", .vstr "1")])]

/-- The store holding the freshly materialised concrete record. -/
def c2Sigma : Store := (allocVal (.vdict c2Es) emptyStore).2

/-- Witness for C2 at the concrete record and override. -/
theorem C2_applyOverrides_correct_witness :
    ∃ a' σ',
      applyOverridesH c2Sigma 2 1 c2Ov = some (a', σ') ∧
      a' ≠ 1 ∧
      (∀ x, x < c2Sigma.next → σ'.mem x = c2Sigma.mem x) ∧
      (∀ g, pdepthEntries c2Es + 1 ≤ g →
        readVal σ' g (.href 1) = some (.vdict c2Es)) ∧
      (∀ g, pdepthEntries (deepUpdateP c2Es c2Ov) + 1 ≤ g →
        readVal σ' g (.href a') = some (.vdict (deepUpdateP c2Es c2Ov))) ∧
      (∀ k d o, lookupE c2Es k = some (.vdict d) →
        lookupE c2Ov k = some (.vdict o) →
        lookupE (deepUpdateP c2Es c2Ov) k = some (.vdict (deepUpdateP d o))) ∧
      (∀ (base o : List (String × PVal)) (k₂ : String), k₂ ∉ o.map Prod.fst →
        lookupE (deepUpdateP base o) k₂ = lookupE base k₂) ∧
      (∀ k v, lookupE c2Ov k = some v →
        ((∀ sub, v ≠ PVal.vdict sub) ∨
          (∀ bs, lookupE c2Es k ≠ some (.vdict bs))) →
        lookupE (deepUpdateP c2Es c2Ov) k = some v) :=
  C2_applyOverrides_correct emptyStore c2Es c2Ov 1 c2Sigma 2
    emptyStore_valid rfl (by decide) (by decide)

/-! ## Errors, filesystem and configuration loading (`vaiae/util.py`) -/

/-- The Python exception kinds the embedded code can raise. -/
inductive PyError where
  | valueError (msg : String)
  | importError (msg : String)
  | attributeError (msg : String)
  | typeError (msg : String)
  | exception (msg : String)
  | fileNotFoundError (msg : String)
  | yamlError (msg : String)
deriving Repr, DecidableEq

/-- What reading and parsing a YAML file can yield: a well-formed document
(`none` for an empty file, otherwise its top-level mapping) or a parse
error. -/
inductive YamlDoc where
  | ok (doc : Option (List (String × PVal)))
  | malformed

/-- The filesystem the process sees: each path is absent or holds a YAML
parse result. -/
structure FileSystem where
  files : String → Option YamlDoc

/-- Python `repr` of a list of strings, as interpolated into the
profile-not-found message. -/
def pythonListRepr (xs : List String) : String :=
  "[" ++ String.intercalate ", " (xs.map (fun s => "'" ++ s ++ "'")) ++ "]"

/-- The message of the ValueError raised for an unknown profile
(src/vaiae/util.py line 44), listing the available profiles. -/
def profileNotFoundMsg (profile : String) (available : List String) : String :=
  "Profile '" ++ profile ++ "' not found in YAML config. Available profiles: "
    ++ pythonListRepr available

/-- What `Util.load_yaml_config` returns: the full document when no profile
is requested, and — as the code stands (src/vaiae/util.py line 45,
`return full_config, full_config[profile]`) — the PAIR of the full document
and the profile record when a profile is requested. Its docstring and
tests/test_util.py line 95 expect the profile record alone. -/
inductive ConfigResult where
  | full (cfg : List (String × PVal))
  | pair (cfg : List (String × PVal)) (profileCfg : PVal)
deriving Repr

/-- `Util.load_yaml_config(file_path, profile)` (src/vaiae/util.py lines
14-49): existence check, parse, then profile extraction. An empty `profile`
string is falsy, so the profile branch is skipped for it. -/
def loadYamlConfig (fs : FileSystem) (filePath : String) (profile : String) :
    Except PyError ConfigResult :=
  match fs.files filePath with
  | none => .error (.fileNotFoundError
      ("Configuration file not found: " ++ filePath))
  | some .malformed => .error (.yamlError
      ("Error parsing YAML file " ++ filePath))
  | some (.ok doc) =>
    let fullConfig := doc.getD []
    if profile ≠ "" then
      if (fullConfig.map Prod.fst).contains profile then
        .ok (.pair fullConfig ((lookupE fullConfig profile).getD .vnull))
      else
        .error (.valueError
          (profileNotFoundMsg profile (fullConfig.map Prod.fst)))
    else
      .ok (.full fullConfig)

/-- Modelled from the spec: `Util.find_config_file` is called by
`Core.__init__` (src/vaiae/core.py line 28) and exercised by
tests/test_util.py lines 24-72, but its definition is absent from
src/src/vaiae/util.py. Per the spec (§6, External Interfaces) the
configuration file is auto-discovered with search order current directory,
then home directory; a file found in neither is a file-not-found error (the
tests show the name searched for defaults to `.agent-engine.yml` and the
message quotes it). -/
def findConfigFile (fs : FileSystem) (cwd home : String)
    (filename : String := ".agent-engine.yml") : Except PyError String :=
  let p₁ := cwd ++ "/" ++ filename
  let p₂ := home ++ "/" ++ filename
  if (fs.files p₁).isSome then .ok p₁
  else if (fs.files p₂).isSome then .ok p₂
  else .error (.fileNotFoundError
    ("Configuration file '" ++ filename ++ "' not found"))

/-! ## Core (`vaiae/core.py`) -/

/-- A deployed agent engine as the remote client returns it: its
server-assigned resource identifier (`api_resource.name`). -/
structure Engine where
  apiResourceName : String
deriving Repr, DecidableEq

/-- A call issued to the remote agent-engines client. -/
inductive RemoteCall where
  | list (displayName : String)
  | listAll
  | create (cfg : List (String × PVal))
  | update (name : String) (cfg : List (String × PVal))
  | delete (name : String) (force : Bool)
deriving Repr

/-- Whether a remote call mutates remote state. -/
def RemoteCall.isMutating : RemoteCall → Bool
  | .list _ => false
  | .listAll => false
  | .create _ => true
  | .update _ _ => true
  | .delete _ _ => true

/-- What `self.app` holds in `Core.send_message`: a local `AdkApp` wrapping
the imported agent, or a remote engine object. -/
inductive App where
  | adk (agentPath : String)
  | engine (e : Engine)
deriving Repr

/-- What `create_session` returns: a dict (whose `id` entry may be absent)
or an object with an `id` attribute. -/
inductive SessionRes where
  | dictRes (idVal : Option PVal)
  | objRes (idVal : PVal)
deriving Repr

/-- One streamed event: `None`-like content (failing `.get("parts", [])`) or
its parts, each an optional text. -/
def Event := Option (List (Option String))

/-- The external world: what the remote client answers, whether a
dynamic import succeeds, and the session/streaming collaborators of
`Core.send_message`. `listByName d` is the list the remote returns for the
filter `display_name="d"`. -/
structure Env where
  listByName : String → List Engine
  importOk : String → Bool
  createSession : App → Option String → Except PyError SessionRes
  streamQuery : App → Option String → Option PVal → String →
    Except PyError (List Event)

/-- The mutable attributes of a `Core` object relevant to the embedded
methods (`self.config` taken as the intended profile mapping). -/
structure CoreState where
  project : Option PVal
  location : Option PVal
  stagingBucket : Option PVal
  profile : String
  config : List (String × PVal)
  vertexAiReady : Bool
  clientReady : Bool

/-- `Core._ensure_vertex_ai_initialized` (src/vaiae/core.py lines 240-271):
lazily sets up the client when `self.project and self.location` are truthy;
otherwise leaves the state (and a `None` client) untouched. The `vertexai`
calls it makes are not agent-engine operations, so they do not appear in
remote-call traces. -/
def ensureReady (st : CoreState) : CoreState :=
  if st.vertexAiReady then st
  else if optTruthy st.project && optTruthy st.location then
    { st with vertexAiReady := true, clientReady := true }
  else st

/-- `Core.get_agent_engine(display_name)` (src/vaiae/core.py lines 85-101):
one filtered list call; the first match or `None`. A missing client (`None`)
fails attribute access instead. Returns (result, new state, remote trace). -/
def getAgentEngine (env : Env) (st : CoreState) (displayName : String) :
    Except PyError (Option Engine) × CoreState × List RemoteCall :=
  let st' := ensureReady st
  if st'.clientReady then
    (.ok (env.listByName displayName).head?, st', [.list displayName])
  else
    (.error (.attributeError
      "'NoneType' object has no attribute 'agent_engines'"), st', [])

/-- `Core.list_agent_engine()` (src/vaiae/core.py lines 103-112). -/
def listAgentEngine (env : Env) (st : CoreState) :
    Except PyError (List Engine) × CoreState × List RemoteCall :=
  let st' := ensureReady st
  if st'.clientReady then
    (.ok (env.listByName "" ), st', [.listAll])
  else
    (.error (.attributeError
      "'NoneType' object has no attribute 'agent_engines'"), st', [])

/-- `Core.delete_agent_engine(name, force, dry_run)` (src/vaiae/core.py
lines 114-157): look the engine up by display name, raise when absent, and
delete unless `dry_run`; the `except` clause logs and re-raises, leaving
outcomes unchanged. -/
def deleteAgentEngine (env : Env) (st : CoreState) (name : String)
    (force dryRun : Bool) :
    Except PyError Unit × CoreState × List RemoteCall :=
  match getAgentEngine env st name with
  | (.error e, st', tr) => (.error e, st', tr)
  | (.ok none, st', tr) =>
      (.error (.exception
        ("Agent engine with display name '" ++ name ++ "' not found")),
       st', tr)
  | (.ok (some eng), st', tr) =>
      if dryRun then (.ok (), st', tr)
      else (.ok (), st', tr ++ [.delete eng.apiResourceName force])

/-- `Core.create_or_update(agent_instance, config_dict, display_name,
dry_run)` (src/vaiae/core.py lines 381-427): one existence check, then
exactly one of update / create / nothing (dry run). -/
def createOrUpdate (env : Env) (st : CoreState)
    (configDict : List (String × PVal)) (displayName : String)
    (dryRun : Bool) :
    Except PyError Unit × CoreState × List RemoteCall :=
  match getAgentEngine env (ensureReady st) displayName with
  | (.error e, st', tr) => (.error e, st', tr)
  | (.ok (some eng), st', tr) =>
      if dryRun then (.ok (), st', tr)
      else (.ok (), st', tr ++ [.update eng.apiResourceName configDict])
  | (.ok none, st', tr) =>
      if dryRun then (.ok (), st', tr)
      else (.ok (), st', tr ++ [.create configDict])

/-- `Core._get_agent_instance_from_config(agent_config)` (src/vaiae/core.py
lines 302-322): import the agent from `instance_path` when that is truthy,
else a ValueError. The imported agent is modelled by its import path; a
failing import is `Util.import_from_string`'s ImportError; a truthy
non-string path would fail inside `rsplit` with an AttributeError. -/
def getAgentInstance (env : Env) (agentConfig : List (String × PVal)) :
    Except PyError String :=
  match lookupE agentConfig "instance_path" with
  | some (.vstr s) =>
      if s = "" then
        .error (.valueError
          "instance_path must be provided in agent_engine configuration")
      else if env.importOk s then .ok s
      else .error (.importError ("Cannot import '" ++ s ++ "'"))
  | some v =>
      if pvTruthy v then
        .error (.attributeError "'object' has no attribute 'rsplit'")
      else
        .error (.valueError
          "instance_path must be provided in agent_engine configuration")
  | none =>
      .error (.valueError
        "instance_path must be provided in agent_engine configuration")

/-- `config.get("agent_engine", {})` followed by dict access: the value must
be a mapping (absent means `{}`); anything else fails attribute access when
`.get` is called on it. -/
def agentEngineSection (config : List (String × PVal)) :
    Except PyError (List (String × PVal)) :=
  match lookupE config "agent_engine" with
  | none => .ok []
  | some (.vdict es) => .ok es
  | some _ => .error (.attributeError "'object' has no attribute 'get'")

/-- `Core._build_agent_engine_config(config)` (src/vaiae/core.py lines
324-379): resolve the agent instance, then assemble the config dict in
source order — the six always-present keys, `staging_bucket` when the Core
has one, then each optional key present in the profile. -/
def buildEngineConfig (env : Env) (st : CoreState)
    (config : List (String × PVal)) :
    Except PyError (String × List (String × PVal)) :=
  match agentEngineSection config with
  | .error e => .error e
  | .ok agentConfig =>
    match getAgentInstance env agentConfig with
    | .error e => .error e
    | .ok agent =>
      let base : List (String × PVal) :=
        [("display_name", (lookupE config "display_name").getD .vnull),
         ("description", (lookupE config "description").getD .vnull),
         ("requirements", (lookupE config "requirements").getD (.vlist [])),
         ("extra_packages", (lookupE config "extra_packages").getD (.vlist [])),
         ("gcs_dir_name", (lookupE config "gcs_dir_name").getD .vnull),
         ("env_vars", (lookupE config "env_vars").getD (.vdict []))]
      let base :=
        if optTruthy st.stagingBucket then
          base ++ [("staging_bucket",
            .vstr ("gs://" ++ pyStr (st.stagingBucket.getD .vnull)))]
        else base
      let addIf := fun (b : List (String × PVal)) (key : String) =>
        match lookupE config key with
        | some v => b ++ [(key, v)]
        | none => b
      let cfg := addIf (addIf (addIf (addIf (addIf (addIf (addIf (addIf
        (addIf (addIf (addIf base
          "labels") "build_options") "identity_type") "service_account")
          "min_instances") "max_instances") "resource_limits")
          "container_concurrency") "encryption_spec") "agent_framework")
          "psc_interface_config"
      .ok (agent, cfg)

/-- `Core.create_or_update_from_yaml(dry_run, **overrides)`
(src/vaiae/core.py lines 159-187): overrides are merged first (value-level
reading of `_apply_overrides`), the engine config is built (which resolves
the agent import) BEFORE `display_name` is checked, and only then is
`create_or_update` reached. -/
def createOrUpdateFromYaml (env : Env) (st : CoreState) (dryRun : Bool)
    (overrides : List (String × PVal)) :
    Except PyError Unit × CoreState × List RemoteCall :=
  let config :=
    if overrides.isEmpty then st.config else applyOverridesP st.config overrides
  match buildEngineConfig env st config with
  | .error e => (.error e, st, [])
  | .ok (_agent, configDict) =>
    let dn := (lookupE config "display_name").getD .vnull
    if pvTruthy dn then
      createOrUpdate env st configDict (pyStr dn) dryRun
    else
      (.error (.valueError "display_name must be provided in YAML config"),
       st, [])

/-- `Core.delete_agent_engine_from_yaml(force, dry_run)` (src/vaiae/core.py
lines 189-215): `display_name` is checked first, then
`delete_agent_engine` is called. -/
def deleteAgentEngineFromYaml (env : Env) (st : CoreState)
    (force dryRun : Bool) :
    Except PyError Unit × CoreState × List RemoteCall :=
  let dn := (lookupE st.config "display_name").getD .vnull
  if pvTruthy dn then
    deleteAgentEngine env st (pyStr dn) force dryRun
  else
    (.error (.valueError "display_name must be provided in YAML config"),
     st, [])

/-- `Core._initialize_from_yaml(yaml_file_path, profile)` (src/vaiae/core.py
lines 217-238): load the config, then read `vertex_ai` settings through
`.get`. Because `load_yaml_config` returns a (full, profile) PAIR for a
truthy profile, `self.config.get(...)` fails attribute access there. The
success value is (config mapping, project, location, staging_bucket). -/
def initFromYaml (fs : FileSystem) (yamlFilePath profile : String) :
    Except PyError
      (List (String × PVal) × Option PVal × Option PVal × Option PVal) :=
  match loadYamlConfig fs yamlFilePath profile with
  | .error e => .error e
  | .ok (.pair _ _) =>
      .error (.attributeError "'tuple' object has no attribute 'get'")
  | .ok (.full cfg) =>
    match (match lookupE cfg "vertex_ai" with
           | none => (.ok [] : Except PyError (List (String × PVal)))
           | some (.vdict es) => .ok es
           | some _ =>
               .error (.attributeError "'object' has no attribute 'get'")) with
    | .error e => .error e
    | .ok va =>
      let pick := fun (k : String) =>
        if optTruthy (lookupE va k) then lookupE va k else none
      .ok (cfg, pick "project", pick "location", pick "staging_bucket")

/-- `Core.__init__(yaml_file_path, profile, debug)` (src/vaiae/core.py lines
11-34): resolve the file (auto-discovery when no explicit path), then
initialise from it. -/
def coreInit (fs : FileSystem) (cwd home : String)
    (yamlFilePath : Option String) (profile : String) :
    Except PyError CoreState :=
  match (match yamlFilePath with
         | some p => (.ok p : Except PyError String)
         | none => findConfigFile fs cwd home) with
  | .error e => .error e
  | .ok path =>
    match initFromYaml fs path profile with
    | .error e => .error e
    | .ok (cfg, proj, loc, bucket) =>
        .ok { project := proj, location := loc, stagingBucket := bucket,
              profile := profile, config := cfg,
              vertexAiReady := false, clientReady := false }

/-! ## `Core.send_message` and the process stderr (`sys.stderr`) -/

/-- Process-wide standard-error state: whether `sys.stderr` currently is the
in-memory buffer, and what has reached each stream. -/
structure ProcState where
  stderrIsBuffer : Bool
  realErrOutput : List String
  bufferErrOutput : List String
deriving Repr

/-- Writing to `sys.stderr`: the text lands wherever `sys.stderr` points. -/
def writeStderr (ps : ProcState) (s : String) : ProcState :=
  if ps.stderrIsBuffer then
    { ps with bufferErrOutput := ps.bufferErrOutput ++ [s] }
  else
    { ps with realErrOutput := ps.realErrOutput ++ [s] }

/-- The app-resolution prefix of `Core.send_message` (src/vaiae/core.py
lines 47-59), everything before `sys.stderr` is replaced: local mode
resolves the agent from `config["agent_engine"]`; remote mode looks the
engine up by the config's display name (`self.app` may become `None`). -/
def resolveApp (env : Env) (st : CoreState) (local_ : Bool) :
    Except PyError (Option App) × CoreState × List RemoteCall :=
  if local_ then
    match agentEngineSection st.config with
    | .error e => (.error e, st, [])
    | .ok agentConfig =>
      match getAgentInstance env agentConfig with
      | .error e => (.error e, st, [])
      | .ok p => (.ok (some (.adk p)), st, [])
  else
    let dn := (lookupE st.config "display_name").getD .vnull
    match getAgentEngine env st (pyStr dn) with
    | (.error e, st', tr) => (.error e, st', tr)
    | (.ok eng, st', tr) => (.ok (eng.map .engine), st', tr)

/-- Consuming the event stream (src/vaiae/core.py lines 78-83):
`event.get("content").get("parts", [])` fails attribute access on a
`None` content; texts go to stdout (not modelled further). -/
def processEvents : List Event → Except PyError Unit
  | [] => .ok ()
  | none :: _ => .error (.attributeError "'NoneType' object has no attribute 'get'")
  | some _ :: rest => processEvents rest

/-- `Core.send_message(message, session_id, user_id, local)`
(src/vaiae/core.py lines 36-83): ensure the client, resolve the app, then
REPLACE `sys.stderr` with an in-memory buffer (line 62) — never restored —
create a session when none was given, stream the query and print the texts.
Returns (outcome, new core state, remote trace, process state). -/
def sendMessage (env : Env) (st : CoreState) (message : String)
    (sessionId userId : Option String) (local_ : Bool) (ps : ProcState) :
    Except PyError Unit × CoreState × List RemoteCall × ProcState :=
  let st₀ := ensureReady st
  match resolveApp env st₀ local_ with
  | (.error e, st', tr) => (.error e, st', tr, ps)
  | (.ok appOpt, st', tr) =>
    let ps := { ps with stderrIsBuffer := true }
    let sidRes : Except PyError (Option PVal) :=
      match sessionId with
      | some s => .ok (some (.vstr s))
      | none =>
        match appOpt with
        | none => .error (.attributeError
            "'NoneType' object has no attribute 'create_session'")
        | some app =>
          match env.createSession app userId with
          | .error e => .error e
          | .ok (.dictRes o) => .ok o
          | .ok (.objRes v) => .ok (some v)
    match sidRes with
    | .error e => (.error e, st', tr, ps)
    | .ok sid =>
      match appOpt with
      | none => (.error (.attributeError
          "'NoneType' object has no attribute 'stream_query'"), st', tr, ps)
      | some app =>
        match env.streamQuery app userId sid message with
        | .error e => (.error e, st', tr, ps)
        | .ok events => (processEvents events, st', tr, ps)

/-! ## CLI dispatch surface (`vaiae/commands.py`) -/

/-- The options the `send` click command defines (src/vaiae/commands.py
lines 46-64): `--message`, `--user-id`, `--session-id`, `--display-name` —
and no `--local`, although tests/test_commands.py lines 252-278 invoke one. -/
def sendCommandOptions : List String :=
  ["--message", "--user-id", "--session-id", "--display-name"]

/-- The keyword arguments the `send` command passes to `Core.send_message`
(src/vaiae/commands.py lines 68-73). -/
def sendCommandKwargs : List String :=
  ["message", "display_name", "session_id", "user_id"]

/-- The keyword parameters `Core.send_message` accepts (src/vaiae/core.py
lines 36-42): `message`, `session_id`, `user_id`, `local`. -/
def sendMessageParams : List String :=
  ["message", "session_id", "user_id", "local"]

/-- Python keyword dispatch: a call with a keyword the signature does not
accept raises a TypeError before the body runs. -/
def callWithKwargs (accepted passed : List String) : Except PyError Unit :=
  match passed.find? (fun k => !accepted.contains k) with
  | some k => .error (.typeError
      ("send_message() got an unexpected keyword argument '" ++ k ++ "'"))
  | none => .ok ()

/-! ## Concrete fixtures for witnesses -/

/-- Remote with no deployed engines; imports succeed. -/
def envEmpty : Env :=
  { listByName := fun _ => []
    importOk := fun _ => true
    createSession := fun _ _ => .ok (.objRes (.vstr "sid"))
    streamQuery := fun _ _ _ _ => .ok [] }

/-- Remote with one deployed engine; imports succeed. -/
def envOne : Env :=
  { envEmpty with
    listByName := fun _ => [⟨"projects/p/locations/l/reasoningEngines/123"⟩] }

/-- Remote with no engines and failing imports. -/
def envNoImport : Env := { envEmpty with importOk := fun _ => false }

/-- A fully-populated core state (valid project/location, a display name and
an importable agent path). -/
def stEx : CoreState :=
  { project := some (.vstr "p"), location := some (.vstr "l")
    stagingBucket := none, profile := "default"
    config := [("display_name", .vstr "a"),
      ("agent_engine", .vdict [("instance_path", .vstr "m.agent")])]
    vertexAiReady := false, clientReady := false }

/-- Like `stEx` but with no `display_name` in the profile. -/
def stNoName : CoreState :=
  { stEx with config := [("agent_engine", .vdict [("instance_path", .vstr "x.y")])] }

/-- Lazy initialisation is idempotent. -/
theorem ensureReady_idem (st : CoreState) :
    ensureReady (ensureReady st) = ensureReady st := by
  unfold ensureReady
  by_cases h1 : st.vertexAiReady
  · simp [h1]
  · by_cases h2 : optTruthy st.project && optTruthy st.location
    · simp [h1, h2]
    · simp [h1, h2]

/-- With an initialised client, `get_agent_engine` is one filtered list call
answering with the head of the remote's list. -/
theorem getAgentEngine_ready (env : Env) (st : CoreState) (dn : String)
    (h : (ensureReady st).clientReady = true) :
    getAgentEngine env st dn =
      (.ok (env.listByName dn).head?, ensureReady st, [.list dn]) := by
  simp [getAgentEngine, h]

/-- C10: `get_agent_engine` issues exactly one remote list call and returns
`None` exactly when the filtered list is empty, else its first element —
also when several engines share the display name. -/
theorem C10_getAgentEngine_first (env env₂ : Env) (st : CoreState)
    (dn : String) (e : Engine) (rest : List Engine)
    (hready : (ensureReady st).clientReady = true)
    (hcons : env₂.listByName dn = e :: rest) :
    (getAgentEngine env st dn).1 = .ok (env.listByName dn).head? ∧
    (getAgentEngine env st dn).2.2 = [.list dn] ∧
    ((getAgentEngine env st dn).1 = .ok none ↔ env.listByName dn = []) ∧
    (getAgentEngine env₂ st dn).1 = .ok (some e) := by
  rw [getAgentEngine_ready env st dn hready, getAgentEngine_ready env₂ st dn hready]
  refine ⟨rfl, rfl, ?_, by simp [hcons]⟩
  simp [List.head?_eq_none_iff]

/-- Witness for C10: empty remote answer and a two-engine remote answer. -/
theorem C10_getAgentEngine_first_witness :
    (getAgentEngine envEmpty stEx "a").1 = .ok (envEmpty.listByName "a").head? ∧
    (getAgentEngine envEmpty stEx "a").2.2 = [.list "a"] ∧
    ((getAgentEngine envEmpty stEx "a").1 = .ok none ↔
      envEmpty.listByName "a" = []) ∧
    (getAgentEngine envOne stEx "a").1 =
      .ok (some ⟨"projects/p/locations/l/reasoningEngines/123"⟩) :=
  C10_getAgentEngine_first envEmpty envOne stEx "a"
    ⟨"projects/p/locations/l/reasoningEngines/123"⟩ [] rfl rfl

/-- C4: without dry run, an empty filtered list leads to exactly one create
call and no update; a single match leads to exactly one update call whose
`name` is that match's `api_resource.name`, and no create. -/
theorem C4_create_vs_update (env₁ env₂ : Env) (st : CoreState)
    (cfg : List (String × PVal)) (dn : String) (e : Engine)
    (hready : (ensureReady st).clientReady = true)
    (hnone : env₁.listByName dn = [])
    (hone : env₂.listByName dn = [e]) :
    createOrUpdate env₁ st cfg dn false =
      (.ok (), ensureReady st, [.list dn, .create cfg]) ∧
    createOrUpdate env₂ st cfg dn false =
      (.ok (), ensureReady st, [.list dn, .update e.apiResourceName cfg]) := by
  have hready' : (ensureReady (ensureReady st)).clientReady = true := by
    rw [ensureReady_idem]; exact hready
  constructor
  · rw [createOrUpdate, getAgentEngine_ready env₁ (ensureReady st) dn hready',
      ensureReady_idem]
    simp [hnone]
  · rw [createOrUpdate, getAgentEngine_ready env₂ (ensureReady st) dn hready',
      ensureReady_idem]
    simp [hone]

/-- Witness for C4: empty and one-engine remote answers. -/
theorem C4_create_vs_update_witness :
    createOrUpdate envEmpty stEx [("display_name", .vstr "a")] "a" false =
      (.ok (), ensureReady stEx,
        [.list "a", .create [("display_name", .vstr "a")]]) ∧
    createOrUpdate envOne stEx [("display_name", .vstr "a")] "a" false =
      (.ok (), ensureReady stEx,
        [.list "a", .update "projects/p/locations/l/reasoningEngines/123"
          [("display_name", .vstr "a")]]) :=
  C4_create_vs_update envEmpty envOne stEx [("display_name", .vstr "a")] "a"
    ⟨"projects/p/locations/l/reasoningEngines/123"⟩ rfl rfl rfl

/-- C3: with `dry_run`, `create_or_update` and `delete_agent_engine` issue
exactly the existence-check list call and never a create, update or delete —
whether or not a matching engine exists — and the from-YAML wrappers issue
no mutating call either. -/
theorem C3_dry_run_no_mutation (env : Env) (st : CoreState)
    (cfg : List (String × PVal)) (dn name : String) (force : Bool)
    (ov : List (String × PVal))
    (hready : (ensureReady st).clientReady = true) :
    (createOrUpdate env st cfg dn true).2.2 = [.list dn] ∧
    (deleteAgentEngine env st name force true).2.2 = [.list name] ∧
    (∀ c ∈ (createOrUpdateFromYaml env st true ov).2.2,
      c.isMutating = false) ∧
    (∀ c ∈ (deleteAgentEngineFromYaml env st force true).2.2,
      c.isMutating = false) := by
  have hready' : (ensureReady (ensureReady st)).clientReady = true := by
    rw [ensureReady_idem]; exact hready
  have hcu : ∀ (d : String) (cf : List (String × PVal)),
      (createOrUpdate env st cf d true).2.2 = [.list d] := by
    intro d cf
    rw [createOrUpdate, getAgentEngine_ready env (ensureReady st) d hready',
      ensureReady_idem]
    rcases (env.listByName d).head? with _ | e <;> simp
  have hdel : ∀ (d : String),
      (deleteAgentEngine env st d force true).2.2 = [.list d] := by
    intro d
    rw [deleteAgentEngine, getAgentEngine_ready env st d hready]
    rcases (env.listByName d).head? with _ | e <;> simp
  refine ⟨hcu dn cfg, hdel name, ?_, ?_⟩
  · rcases hb : buildEngineConfig env st
        (if ov.isEmpty then st.config else applyOverridesP st.config ov)
      with e | ⟨ag, cd⟩
    · simp [createOrUpdateFromYaml, hb]
    · simp only [createOrUpdateFromYaml, hb]
      by_cases hdn : pvTruthy ((lookupE
          (if ov.isEmpty then st.config else applyOverridesP st.config ov)
          "display_name").getD .vnull)
      · simp only [hdn, if_true]
        rw [hcu]
        simp [RemoteCall.isMutating]
      · simp [hdn]
  · by_cases hdn : pvTruthy ((lookupE st.config "display_name").getD .vnull)
    · simp only [deleteAgentEngineFromYaml, hdn, if_true]
      rw [hdel]
      simp [RemoteCall.isMutating]
    · simp [deleteAgentEngineFromYaml, hdn]

/-- Witness for C3 on a populated state against a one-engine remote. -/
theorem C3_dry_run_no_mutation_witness :
    (createOrUpdate envOne stEx [("display_name", .vstr "a")] "a" true).2.2 =
      [.list "a"] ∧
    (deleteAgentEngine envOne stEx "a" false true).2.2 = [.list "a"] ∧
    (∀ c ∈ (createOrUpdateFromYaml envOne stEx true []).2.2,
      c.isMutating = false) ∧
    (∀ c ∈ (deleteAgentEngineFromYaml envOne stEx false true).2.2,
      c.isMutating = false) :=
  C3_dry_run_no_mutation envOne stEx [("display_name", .vstr "a")] "a" "a"
    false [] rfl

/-- C5 counterexample: a resolved configuration without `display_name` whose
agent import fails makes `create_or_update_from_yaml` raise ImportError —
not the ValueError the claim states — though still before any remote call. -/
theorem C5_counterexample_import_error :
    createOrUpdateFromYaml envNoImport stNoName false [] =
      (.error (.importError "Cannot import 'x.y'"), stNoName, []) ∧
    (PyError.importError "Cannot import 'x.y'" ≠
      PyError.valueError "display_name must be provided in YAML config") := by
  exact ⟨rfl, by decide⟩

/-- C5 (amended): with `display_name` absent or falsy in the resolved
configuration, both from-YAML entry points fail before any remote call (the
trace is empty); `delete_agent_engine_from_yaml` always raises the
ValueError, and `create_or_update_from_yaml` raises it whenever the engine
config build (agent resolution) succeeds — otherwise that earlier error is
raised instead, still with no remote call. -/
theorem C5_missing_display_name (env env₂ : Env) (st st₂ : CoreState)
    (force dryRun dryRun₂ : Bool) (ov ov₂ : List (String × PVal))
    (ag : String) (cfg : List (String × PVal))
    (hdn : pvTruthy ((lookupE (if ov.isEmpty then st.config
        else applyOverridesP st.config ov) "display_name").getD .vnull) = false)
    (hdn₂ : pvTruthy ((lookupE (if ov₂.isEmpty then st₂.config
        else applyOverridesP st₂.config ov₂) "display_name").getD .vnull) = false)
    (hbuild₂ : buildEngineConfig env₂ st₂ (if ov₂.isEmpty then st₂.config
        else applyOverridesP st₂.config ov₂) = .ok (ag, cfg))
    (hdnd : pvTruthy ((lookupE st.config "display_name").getD .vnull) = false) :
    (∃ e, createOrUpdateFromYaml env st dryRun ov = (.error e, st, [])) ∧
    createOrUpdateFromYaml env₂ st₂ dryRun₂ ov₂ =
      (.error (.valueError "display_name must be provided in YAML config"),
        st₂, []) ∧
    deleteAgentEngineFromYaml env st force dryRun =
      (.error (.valueError "display_name must be provided in YAML config"),
        st, []) := by
  refine ⟨?_, ?_, ?_⟩
  · rcases hb : buildEngineConfig env st
        (if ov.isEmpty then st.config else applyOverridesP st.config ov)
      with e | ⟨a, c⟩
    · exact ⟨e, by simp [createOrUpdateFromYaml, hb]⟩
    · exact ⟨.valueError "display_name must be provided in YAML config",
        by simp [createOrUpdateFromYaml, hb, hdn]⟩
  · simp [createOrUpdateFromYaml, hbuild₂, hdn₂]
  · simp [deleteAgentEngineFromYaml, hdnd]

/-- Witness for the amended C5: an import that fails and one that succeeds,
both with `display_name` absent and no remote call issued. -/
theorem C5_missing_display_name_witness :
    (∃ e, createOrUpdateFromYaml envNoImport stNoName false [] =
      (.error e, stNoName, [])) ∧
    createOrUpdateFromYaml envEmpty stNoName false [] =
      (.error (.valueError "display_name must be provided in YAML config"),
        stNoName, []) ∧
    deleteAgentEngineFromYaml envNoImport stNoName false false =
      (.error (.valueError "display_name must be provided in YAML config"),
        stNoName, []) :=
  C5_missing_display_name envNoImport envEmpty stNoName stNoName false false
    false [] [] "x.y"
    [("display_name", .vnull), ("description", .vnull),
     ("requirements", .vlist []), ("extra_packages", .vlist []),
     ("gcs_dir_name", .vnull), ("env_vars", .vdict [])]
    rfl rfl rfl rfl

/-- C6: requesting a profile that is not a top-level key fails with the
ValueError whose message lists exactly the document's top-level keys as the
available profiles, and no configuration is returned. -/
theorem C6_profile_not_found (fs : FileSystem) (path profile : String)
    (doc : Option (List (String × PVal)))
    (hfile : fs.files path = some (.ok doc))
    (hprof : profile ≠ "")
    (habsent : ((doc.getD []).map Prod.fst).contains profile = false) :
    loadYamlConfig fs path profile =
      .error (.valueError
        (profileNotFoundMsg profile ((doc.getD []).map Prod.fst))) := by
  have habsent' : profile ∉ (doc.getD []).map Prod.fst := by simpa using habsent
  simp [loadYamlConfig, hfile, hprof, habsent]
  intro x hx
  exact habsent' (List.mem_map_of_mem Prod.fst hx)

/-- The filesystem fixture: one well-formed config file. -/
def fsEx : FileSystem :=
  ⟨fun p => if p = "/cwd/.agent-engine.yml" then
      some (.ok (some [("default", .vdict [("display_name", .vstr "a")])]))
    else none⟩

/-- Witness for C6: requesting profile `production` from a document whose
only top-level key is `default`. -/
theorem C6_profile_not_found_witness :
    loadYamlConfig fsEx "/cwd/.agent-engine.yml" "production" =
      .error (.valueError
        (profileNotFoundMsg "production" ["default"])) :=
  C6_profile_not_found fsEx "/cwd/.agent-engine.yml" "production"
    (some [("default", .vdict [("display_name", .vstr "a")])])
    rfl (by decide) (by decide)

/-- The example document of C1: profile `default` with a display name and
vertex settings. -/
def c1Profile : PVal :=
  .vdict [("display_name", .vstr "a"),
    ("vertex_ai", .vdict [("project", .vstr "p"), ("location", .vstr "l")])]

/-- A filesystem holding the C1 example document. -/
def c1Fs : FileSystem :=
  ⟨fun p => if p = "/cwd/.agent-engine.yml" then
      some (.ok (some [("default", c1Profile)]))
    else none⟩

/-- C1 evaluated at its failing input: `load_yaml_config` returns the PAIR
`(full_config, full_config["default"])` instead of the profile record
(src/vaiae/util.py line 45, contradicting its docstring and
tests/test_util.py line 95), so `Core._initialize_from_yaml` crashes calling
`.get` on a tuple and construction fails — no resolved mapping, no merge. -/
theorem C1_load_returns_pair_code_bug :
    loadYamlConfig c1Fs "/cwd/.agent-engine.yml" "default" =
      .ok (.pair [("default", c1Profile)] c1Profile) ∧
    initFromYaml c1Fs "/cwd/.agent-engine.yml" "default" =
      .error (.attributeError "'tuple' object has no attribute 'get'") ∧
    coreInit c1Fs "/cwd" "/home" (some "/cwd/.agent-engine.yml") "default" =
      .error (.attributeError "'tuple' object has no attribute 'get'") := by
  exact ⟨rfl, rfl, rfl⟩

/-- C7: configuration auto-discovery — a file in the current directory wins,
else the home directory is searched; `Core.__init__` without an explicit
path behaves exactly as if the discovered path had been passed explicitly
(so construction cannot fail merely for lack of an explicit path); an
explicit path makes construction independent of both directories. -/
theorem C7_config_discovery (fs₁ fs₂ fs₃ : FileSystem)
    (cwd home cwd' home' profile p q : String)
    (hc1 : (fs₁.files (cwd ++ "/" ++ ".agent-engine.yml")).isSome = true)
    (hc2a : fs₂.files (cwd ++ "/" ++ ".agent-engine.yml") = none)
    (hc2b : (fs₂.files (home ++ "/" ++ ".agent-engine.yml")).isSome = true)
    (hp : findConfigFile fs₃ cwd home = .ok p) :
    findConfigFile fs₁ cwd home = .ok (cwd ++ "/" ++ ".agent-engine.yml") ∧
    findConfigFile fs₂ cwd home = .ok (home ++ "/" ++ ".agent-engine.yml") ∧
    coreInit fs₃ cwd home none profile = coreInit fs₃ cwd home (some p) profile ∧
    coreInit fs₃ cwd home (some q) profile =
      coreInit fs₃ cwd' home' (some q) profile := by
  refine ⟨by simp [findConfigFile, hc1], by simp [findConfigFile, hc2a, hc2b],
    ?_, rfl⟩
  simp [coreInit, hp]

/-- Witness for C7: a file only in the current directory, a file only in the
home directory, and the equivalence of implicit and explicit paths. -/
theorem C7_config_discovery_witness :
    findConfigFile fsEx "/cwd" "/home" =
      .ok ("/cwd" ++ "/" ++ ".agent-engine.yml") ∧
    findConfigFile ⟨fun p => if p = "/home/.agent-engine.yml" then
        some (.ok (some [])) else none⟩ "/cwd" "/home" =
      .ok ("/home" ++ "/" ++ ".agent-engine.yml") ∧
    coreInit fsEx "/cwd" "/home" none "default" =
      coreInit fsEx "/cwd" "/home" (some "/cwd/.agent-engine.yml") "default" ∧
    coreInit fsEx "/cwd" "/home" (some "/x/y.yml") "default" =
      coreInit fsEx "/other" "/elsewhere" (some "/x/y.yml") "default" :=
  C7_config_discovery fsEx
    ⟨fun p => if p = "/home/.agent-engine.yml" then
        some (.ok (some [])) else none⟩
    fsEx "/cwd" "/home" "/other" "/elsewhere" "default"
    "/cwd/.agent-engine.yml" "/x/y.yml" rfl rfl rfl rfl

/-- C9: once `send_message` reaches the `sys.stderr = io.StringIO()` line
(its app-resolution prefix returned), the process stderr is the in-memory
buffer in every outcome — return or raise — and is never restored, so later
writes to stderr land in the buffer and the real stream receives nothing. -/
theorem C9_stderr_replaced (env : Env) (st : CoreState) (message : String)
    (sessionId userId : Option String) (local_ : Bool) (ps : ProcState)
    (appOpt : Option App) (st' : CoreState) (tr : List RemoteCall) (s : String)
    (hres : resolveApp env (ensureReady st) local_ = (.ok appOpt, st', tr)) :
    (sendMessage env st message sessionId userId local_ ps).2.2.2.stderrIsBuffer
      = true ∧
    (writeStderr (sendMessage env st message sessionId userId local_ ps).2.2.2
        s).realErrOutput =
      (sendMessage env st message sessionId userId local_ ps).2.2.2.realErrOutput := by
  have hps : (sendMessage env st message sessionId userId local_ ps).2.2.2 =
      { ps with stderrIsBuffer := true } := by
    rcases sessionId with _ | s₀
    · rcases appOpt with _ | app
      · simp [sendMessage, hres]
      · rcases hcs : env.createSession app userId with e | sres
        · simp [sendMessage, hres, hcs]
        · rcases sres with o | v
          · rcases hsq : env.streamQuery app userId o message with e | evs
            · simp [sendMessage, hres, hcs, hsq]
            · simp [sendMessage, hres, hcs, hsq]
          · rcases hsq : env.streamQuery app userId (some v) message with e | evs
            · simp [sendMessage, hres, hcs, hsq]
            · simp [sendMessage, hres, hcs, hsq]
    · rcases appOpt with _ | app
      · simp [sendMessage, hres]
      · rcases hsq : env.streamQuery app userId (some (.vstr s₀)) message
          with e | evs
        · simp [sendMessage, hres, hsq]
        · simp [sendMessage, hres, hsq]
  rw [hps]
  exact ⟨rfl, by simp [writeStderr]⟩

/-- Witness for C9: remote mode with no matching engine — `send_message`
raises after the replacement, and stderr stays the buffer. -/
theorem C9_stderr_replaced_witness :
    (sendMessage envEmpty stEx "hi" none (some "u") false
      ⟨false, [], []⟩).2.2.2.stderrIsBuffer = true ∧
    (writeStderr (sendMessage envEmpty stEx "hi" none (some "u") false
        ⟨false, [], []⟩).2.2.2 "Error: x").realErrOutput =
      (sendMessage envEmpty stEx "hi" none (some "u") false
        ⟨false, [], []⟩).2.2.2.realErrOutput :=
  C9_stderr_replaced envEmpty stEx "hi" none (some "u") false ⟨false, [], []⟩
    none (ensureReady (ensureReady stEx)) [.list "a"] "Error: x" rfl

/-- C8 evaluated at its failing input: the `send` command does not define
`--local` (it defines `--display-name` instead) and passes `display_name=`
to `Core.send_message`, whose signature accepts only `message`,
`session_id`, `user_id` and `local` — so every well-formed send invocation
fails at dispatch with an unexpected-keyword TypeError, contradicting
tests/test_commands.py lines 196-278. -/
theorem C8_send_dispatch_code_bug :
    callWithKwargs sendMessageParams sendCommandKwargs =
      .error (.typeError
        "send_message() got an unexpected keyword argument 'display_name'") ∧
    sendCommandOptions.contains "--local" = false ∧
    sendCommandKwargs.contains "display_name" = true ∧
    sendMessageParams.contains "display_name" = false := by
  exact ⟨rfl, rfl, rfl, rfl⟩
